import Mathlib

/-!
Verification of the June.so → RudderStack/BigQuery migration core
(`server.js` / `schema.js`), shallowly embedded in Lean 4.

JavaScript strings are modelled as lists of UTF-16 code points (`JStr`);
JavaScript numbers as rationals (`Rat`); parsed JSON values as the
inductive `Json`; JavaScript objects and `Map`s as insertion-ordered
association lists with in-place update (`setKey`); the BigQuery dataset
as an explicit state value threaded through the operations, together
with a trace of the destination-store calls that were issued.
-/

namespace JuneMigrate

/-- JavaScript strings, as lists of UTF-16 code points. -/
abbrev JStr := List Nat

/-- Embed a Lean string literal as a `JStr`. -/
def jstr (s : String) : JStr := s.data.map Char.toNat

/-- ASCII uppercase letter, the class `[A-Z]`. -/
def isUpperCode (c : Nat) : Bool := decide (65 ≤ c ∧ c ≤ 90)

/-- ASCII lowercase letter, the class `[a-z]`. -/
def isLowerCode (c : Nat) : Bool := decide (97 ≤ c ∧ c ≤ 122)

/-- ASCII digit, the class `[0-9]`. -/
def isDigitCode (c : Nat) : Bool := decide (48 ≤ c ∧ c ≤ 57)

/-- The regex class `[^a-zA-Z0-9_]` complemented: word characters kept by
`sanitizeTableName`'s strip step. -/
def isWordCode (c : Nat) : Bool := isUpperCode c || isLowerCode c || isDigitCode c || decide (c = 95)

/-- Lowercase word character: what survives `sanitizeTableName`'s pipeline. -/
def isWordLowerCode (c : Nat) : Bool := isLowerCode c || isDigitCode c || decide (c = 95)

/-- The regex class `[\s\-]` of JavaScript: whitespace code points and the hyphen. -/
def isSpaceHyphenCode (c : Nat) : Bool :=
  decide (c = 9) || decide (c = 10) || decide (c = 11) || decide (c = 12) || decide (c = 13) ||
  decide (c = 32) || decide (c = 45) || decide (c = 160) || decide (c = 5760) ||
  decide (8192 ≤ c ∧ c ≤ 8202) || decide (c = 8232) || decide (c = 8233) ||
  decide (c = 8239) || decide (c = 8287) || decide (c = 12288) || decide (c = 65279)

/-- JavaScript `String.prototype.toLowerCase` restricted to the code points that
can reach it in `sanitizeTableName` (ASCII after the strip step). -/
def toLowerCode (c : Nat) : Nat := if isUpperCode c then c + 32 else c

/-- `camelToSnakeCase` of `server.js`: replace every `[A-Z]` occurrence `L`
with `_` followed by `L.toLowerCase()`. -/
def camelToSnakeCase (s : JStr) : JStr :=
  s.flatMap (fun c => if isUpperCode c then [95, toLowerCode c] else [c])

/-- Step `.replace(/([A-Z])/g, '_$1')` of `sanitizeTableName`:
insert an underscore before every uppercase letter, keeping the letter. -/
def insertUnderscoreBeforeUpper (s : JStr) : JStr :=
  s.flatMap (fun c => if isUpperCode c then [95, c] else [c])

/-- Step `.replace(/[\s\-]+/g, '_')`: each maximal run of whitespace/hyphen
code points becomes a single underscore. -/
def collapseSpaceHyphen : JStr → JStr
  | [] => []
  | [c] => if isSpaceHyphenCode c then [95] else [c]
  | c :: d :: rest =>
    if isSpaceHyphenCode c then
      if isSpaceHyphenCode d then collapseSpaceHyphen (d :: rest)
      else 95 :: collapseSpaceHyphen (d :: rest)
    else c :: collapseSpaceHyphen (d :: rest)

/-- Step `.replace(/[^a-zA-Z0-9_]/g, '')`: drop every non-word code point. -/
def stripNonWord (s : JStr) : JStr := s.filter isWordCode

/-- Step `.replace(/__+/g, '_')`: each run of two or more underscores becomes
a single underscore. -/
def collapseUnderscores : JStr → JStr
  | [] => []
  | [c] => [c]
  | c :: d :: rest =>
    if c = 95 ∧ d = 95 then collapseUnderscores (d :: rest)
    else c :: collapseUnderscores (d :: rest)

/-- Step `.toLowerCase()`. -/
def toLowerStr (s : JStr) : JStr := s.map toLowerCode

/-- Half of step `.replace(/^_|_$/g, '')`: drop a single leading underscore. -/
def trimLeadingUnderscore : JStr → JStr
  | [] => []
  | c :: rest => if c = 95 then rest else c :: rest

/-- Other half of step `.replace(/^_|_$/g, '')`: drop a single trailing underscore. -/
def trimTrailingUnderscore : JStr → JStr
  | [] => []
  | [c] => if c = 95 then [] else [c]
  | c :: d :: rest => c :: trimTrailingUnderscore (d :: rest)

/-- Step `.replace(/^_|_$/g, '')` of `sanitizeTableName`. -/
def trimEdgeUnderscores (s : JStr) : JStr :=
  trimTrailingUnderscore (trimLeadingUnderscore s)

/-- The replace pipeline of `sanitizeTableName`, in the order of `server.js`:
`snakeCased` is the first three replaces, `cleaned` the remaining three. -/
def sanitizePipeline (name : JStr) : JStr :=
  trimEdgeUnderscores (toLowerStr (collapseUnderscores
    (stripNonWord (collapseSpaceHyphen (insertUnderscoreBeforeUpper name)))))

/-- `sanitizeTableName` of `server.js`. The `JStr` `[]` plays the role of the
falsy values (`undefined`, `null`, `''`) of the JavaScript `!name` check. -/
def sanitizeTableName (name : JStr) : JStr :=
  if name = [] then jstr "unknown_event"
  else if sanitizePipeline name = [] then jstr "unknown_event"
  else sanitizePipeline name

/-! Normal form of `sanitizeTableName` outputs, used for idempotence. -/

/-- Holds when no two adjacent code points are both underscores. -/
def noDoubleUnderscore : JStr → Bool
  | [] => true
  | [_] => true
  | a :: b :: rest => !(decide (a = 95 ∧ b = 95)) && noDoubleUnderscore (b :: rest)

/-- Holds when the first code point, if any, is not an underscore. -/
def headNot95 : JStr → Bool
  | [] => true
  | c :: _ => !(decide (c = 95))

/-- Holds when the last code point, if any, is not an underscore. -/
def lastNot95 : JStr → Bool
  | [] => true
  | [c] => !(decide (c = 95))
  | _ :: d :: rest => lastNot95 (d :: rest)

/-- Normal form of a nonempty sanitized table name: lowercase word characters,
no doubled underscore, and no underscore at either edge. -/
def sanitizedForm (s : JStr) : Bool :=
  !(decide (s = [])) && s.all isWordLowerCode && noDoubleUnderscore s &&
    headNot95 s && lastNot95 s

/-! ## Parsed JSON values

JavaScript numbers are modelled as rationals; `Number.isInteger` becomes the
denominator-one test. -/

inductive Json : Type where
  | null
  | bool (b : Bool)
  | num (q : Rat)
  | str (s : JStr)
  | arr (elems : List Json)
  | obj (entries : List (JStr × Json))

/-- Decimal digits of a natural number, as a `JStr` (models the string keys
`"0"`, `"1"`, … that `Object.entries` produces for array indices). -/
def natToJStr (n : Nat) : JStr := (Nat.toDigits 10 n).map Char.toNat

/-- Render an integer in decimal, with `-` (code 45) for negatives. -/
def intToJStr (i : Int) : JStr :=
  if i < 0 then 45 :: natToJStr i.natAbs else natToJStr i.natAbs

mutual

/-- Models `JSON.stringify`. Structure (brackets, braces, commas, quoting)
is exact; the decimal rendering of non-integer numbers is abstracted as
numerator `/` denominator, which no property below inspects. -/
def stringifyJson : Json → JStr
  | .null => jstr "null"
  | .bool b => if b then jstr "true" else jstr "false"
  | .num q => if q.den = 1 then intToJStr q.num else
      intToJStr q.num ++ [47] ++ natToJStr q.den
  | .str s => [34] ++ s ++ [34]
  | .arr es => [91] ++ stringifyArr es ++ [93]
  | .obj es => [123] ++ stringifyObj es ++ [125]

def stringifyArr : List Json → JStr
  | [] => []
  | [x] => stringifyJson x
  | x :: y :: rest => stringifyJson x ++ [44] ++ stringifyArr (y :: rest)

def stringifyObj : List (JStr × Json) → JStr
  | [] => []
  | [p] => [34] ++ p.1 ++ [34, 58] ++ stringifyJson p.2
  | p :: q :: rest =>
      [34] ++ p.1 ++ [34, 58] ++ stringifyJson p.2 ++ [44] ++ stringifyObj (q :: rest)

end

/-! ## Type inference -/

/-- The test `/^\d{4}-\d{2}-\d{2}T\d{2}:\d{2}:\d{2}/.test(value)` of
`inferBigQueryType`: the string starts with 19 code points of the shape
`YYYY-MM-DDTHH:MM:SS`. -/
def matchesTimestampShape : JStr → Bool
  | y1 :: y2 :: y3 :: y4 :: u1 :: o1 :: o2 :: u2 :: a1 :: a2 :: tc ::
      h1 :: h2 :: c1 :: i1 :: i2 :: c2 :: e1 :: e2 :: _ =>
    isDigitCode y1 && isDigitCode y2 && isDigitCode y3 && isDigitCode y4 &&
    decide (u1 = 45) && isDigitCode o1 && isDigitCode o2 && decide (u2 = 45) &&
    isDigitCode a1 && isDigitCode a2 && decide (tc = 84) &&
    isDigitCode h1 && isDigitCode h2 && decide (c1 = 58) &&
    isDigitCode i1 && isDigitCode i2 && decide (c2 = 58) &&
    isDigitCode e1 && isDigitCode e2
  | _ => false

/-- `inferBigQueryType` of `server.js`. `Number.isInteger` on the rational
model of a JavaScript number is the denominator-one test. Values whose
`typeof` is `'object'` (`null` included) fall through to `'STRING'`. -/
def inferBigQueryType (value : Json) : JStr :=
  match value with
  | .bool _ => jstr "BOOL"
  | .num q => if q.den = 1 then jstr "INT64" else jstr "FLOAT64"
  | .str s => if matchesTimestampShape s then jstr "TIMESTAMP" else jstr "STRING"
  | _ => jstr "STRING"

/-! ## JavaScript objects and Maps as insertion-ordered association lists

`setKey` is the shared update semantics of both a JavaScript object property
write and `Map.set`: an existing key keeps its position and gets the new
value; a new key is appended. `lookupKey` is property read / `Map.get`. -/

def lookupKey {α : Type} : List (JStr × α) → JStr → Option α
  | [], _ => none
  | p :: rest, k => if p.1 = k then some p.2 else lookupKey rest k

def setKey {α : Type} : List (JStr × α) → JStr → α → List (JStr × α)
  | [], k, v => [(k, v)]
  | p :: rest, k, v => if p.1 = k then (k, v) :: rest else p :: setKey rest k v

/-- Models `Object.assign(target, src)`. -/
def objAssign {α : Type} (target src : List (JStr × α)) : List (JStr × α) :=
  src.foldl (fun acc p => setKey acc p.1 p.2) target

/-- A flattened row: canonical column name to leaf value, in insertion order. -/
abbrev FlatRow := List (JStr × Json)

/-- The check `typeof value === 'object' && value !== null && !Array.isArray(value)`
guarding recursion in `flattenObject`. -/
def isPlainObject : Json → Bool
  | .obj _ => true
  | _ => false

/-- The check `Array.isArray(value)`. -/
def isArrayJson : Json → Bool
  | .arr _ => true
  | _ => false

/-- The leaf written by `flattenObject`:
`result[newKey] = Array.isArray(value) ? JSON.stringify(value) : value`. -/
def leafValue (v : Json) : Json :=
  if isArrayJson v then .str (stringifyJson v) else v

/-- The key composition `prefix ? prefix + '_' + key : key` of `flattenObject`. -/
def composeKey (pfx key : JStr) : JStr :=
  if pfx = [] then key else pfx ++ [95] ++ key

mutual

/-- `flattenObject` of `server.js`. The guard
`if (!obj || typeof obj !== 'object') return {}` stops at `null` and at the
scalars; both objects and arrays reach the `Object.entries` loop (array
entries are enumerated with their decimal index strings as keys). -/
def flattenObject : Json → JStr → FlatRow
  | .obj entries, pfx => flattenLoop entries pfx []
  | .arr elems, pfx => flattenLoopIdx elems 0 pfx []
  | _, _ => []

/-- The `for (let [key, value] of Object.entries(obj))` loop of
`flattenObject`, accumulating into `result`. -/
def flattenLoop : List (JStr × Json) → JStr → FlatRow → FlatRow
  | [], _, result => result
  | (key, value) :: rest, pfx, result =>
    let newKey := composeKey pfx (camelToSnakeCase key)
    let next :=
      if isPlainObject value then objAssign result (flattenObject value newKey)
      else setKey result newKey (leafValue value)
    flattenLoop rest pfx next

/-- The same loop when `obj` is an array: `Object.entries` yields index keys. -/
def flattenLoopIdx : List Json → Nat → JStr → FlatRow → FlatRow
  | [], _, _, result => result
  | value :: rest, i, pfx, result =>
    let newKey := composeKey pfx (camelToSnakeCase (natToJStr i))
    let next :=
      if isPlainObject value then objAssign result (flattenObject value newKey)
      else setKey result newKey (leafValue value)
    flattenLoopIdx rest (i + 1) pfx next

end

/-! ## Static schemas (`schema.js`) -/

/-- One BigQuery column: name and type. -/
structure Field where
  name : JStr
  type : JStr
deriving DecidableEq

/-- `BASE_SCHEMA` of `schema.js`. -/
def BASE_SCHEMA : List Field :=
  [⟨jstr "id", jstr "STRING"⟩,
   ⟨jstr "anonymous_id", jstr "STRING"⟩,
   ⟨jstr "user_id", jstr "STRING"⟩,
   ⟨jstr "received_at", jstr "TIMESTAMP"⟩,
   ⟨jstr "sent_at", jstr "TIMESTAMP"⟩,
   ⟨jstr "timestamp", jstr "TIMESTAMP"⟩,
   ⟨jstr "original_timestamp", jstr "TIMESTAMP"⟩,
   ⟨jstr "channel", jstr "STRING"⟩,
   ⟨jstr "loaded_at", jstr "TIMESTAMP"⟩,
   ⟨jstr "uuid_ts", jstr "TIMESTAMP"⟩]

def IDENTIFIES_SCHEMA : List Field := BASE_SCHEMA

def GROUPS_SCHEMA : List Field := BASE_SCHEMA ++ [⟨jstr "group_id", jstr "STRING"⟩]

def PAGES_SCHEMA : List Field := BASE_SCHEMA ++ [⟨jstr "name", jstr "STRING"⟩]

def TRACKS_SCHEMA : List Field :=
  BASE_SCHEMA ++ [⟨jstr "event", jstr "STRING"⟩, ⟨jstr "event_text", jstr "STRING"⟩]

def USERS_SCHEMA : List Field := [⟨jstr "user_id", jstr "STRING"⟩]

/-! ## Raw records and the Record Materializer -/

/-- The text of a JSON-encoded CSV field, modelled by its parse outcome:
either well-formed text that `JSON.parse` decodes to a `Json` value, or
malformed text on which `JSON.parse` throws. -/
inductive RawText : Type where
  | json (j : Json)
  | malformed

/-- One CSV row. Every column is optional (`none` models a missing column,
i.e. `undefined`, and also the empty string for the JSON-encoded fields,
both being falsy in the `row[k] || '-'`-style defaults). `rtype` is the CSV
column named `type`. -/
structure RawRecord where
  message_id : Option JStr
  anonymous_id : Option JStr
  user_id : Option JStr
  received_at : Option JStr
  sent_at : Option JStr
  timestamp : Option JStr
  original_timestamp : Option JStr
  channel : Option JStr
  version : Option JStr
  group_id : Option JStr
  name : Option JStr
  rtype : Option JStr
  context : Option RawText
  traits : Option RawText
  properties : Option RawText

/-- A record with every column absent. -/
def emptyRecord : RawRecord :=
  ⟨none, none, none, none, none, none, none, none, none, none, none, none,
   none, none, none⟩

/-- The dynamic-payload column designator (`dynamicPropertyKey` argument). -/
inductive DynKey : Type where
  | traits
  | properties
deriving DecidableEq

/-- `row[dynamicPropertyKey]`. -/
def dynFieldGet (r : RawRecord) : DynKey → Option RawText
  | .traits => r.traits
  | .properties => r.properties

/-- Replace the designated dynamic-payload column of a record. -/
def dynFieldSet (r : RawRecord) (k : DynKey) (v : Option RawText) : RawRecord :=
  ⟨r.message_id, r.anonymous_id, r.user_id, r.received_at, r.sent_at,
   r.timestamp, r.original_timestamp, r.channel, r.version, r.group_id,
   r.name, r.rtype,
   r.context,
   (if k = DynKey.traits then v else r.traits),
   (if k = DynKey.properties then v else r.properties)⟩

/-- Models `JSON.parse(text || '\x7b\x7d')`: a missing or empty field decodes
to the empty object, well-formed text to its value, malformed text throws. -/
def parseField : Option RawText → Except Unit Json
  | none => .ok (.obj [])
  | some (.json j) => .ok j
  | some .malformed => .error ()

/-- The row materialization of `manageSchemaAndInsert` (`server.js` lines
112-133): decode the two JSON-encoded fields, build the fixed envelope,
add `event`/`event_text` when the base schema is `TRACKS_SCHEMA`, assign the
flattened context then the flattened dynamic payload, and delete the keys
whose value is still `undefined` (modelled as `none`). -/
def materializeRow (baseSchema : List Field) (dynKey : DynKey) (row : RawRecord) :
    Except Unit FlatRow :=
  match parseField (dynFieldGet row dynKey) with
  | .error e => .error e
  | .ok dynamicData =>
    match parseField row.context with
    | .error e => .error e
    | .ok context =>
      let fixed : List (JStr × Option Json) :=
        [(jstr "id", row.message_id.map Json.str),
         (jstr "anonymous_id", row.anonymous_id.map Json.str),
         (jstr "user_id", row.user_id.map Json.str),
         (jstr "received_at", row.received_at.map Json.str),
         (jstr "sent_at", row.sent_at.map Json.str),
         (jstr "timestamp", row.timestamp.map Json.str),
         (jstr "original_timestamp", row.original_timestamp.map Json.str),
         (jstr "channel", row.channel.map Json.str),
         (jstr "version", row.version.map Json.str),
         (jstr "group_id", row.group_id.map Json.str)]
      let withEvent :=
        if baseSchema = TRACKS_SCHEMA then
          fixed ++
            [(jstr "event", some (Json.str (sanitizeTableName (row.name.getD [])))),
             (jstr "event_text", row.name.map Json.str)]
        else fixed
      let withContext :=
        (flattenObject context (jstr "context")).foldl
          (fun acc p => setKey acc p.1 (some p.2)) withEvent
      let withDyn :=
        (flattenObject dynamicData []).foldl
          (fun acc p => setKey acc p.1 (some p.2)) withContext
      .ok (withDyn.filterMap (fun p => p.2.map (fun v => (p.1, v))))

/-- `rows.map(...)` over the materialization; the first decode failure
aborts the whole batch, as a thrown exception does in the source. -/
def materializeRows (baseSchema : List Field) (dynKey : DynKey) :
    List RawRecord → Except Unit (List FlatRow)
  | [] => .ok []
  | row :: rest =>
    match materializeRow baseSchema dynKey row with
    | .error e => .error e
    | .ok fr =>
      match materializeRows baseSchema dynKey rest with
      | .error e => .error e
      | .ok frs => .ok (fr :: frs)

/-! ## Discovered schema (type discovery and merge) -/

/-- Column name to column type, in discovery order (the `Map`). -/
abbrev FieldMap := List (JStr × JStr)

/-- One iteration of the discovery loop (`server.js` lines 137-142):
`if (!has(key) || (get(key) !== 'STRING' && type === 'STRING')) set(key, type)`. -/
def discoverStep (m : FieldMap) (key : JStr) (value : Json) : FieldMap :=
  let t := inferBigQueryType value
  match lookupKey m key with
  | none => setKey m key t
  | some old => if old ≠ jstr "STRING" ∧ t = jstr "STRING" then setKey m key t else m

/-- The full scan of all materialized rows. -/
def discoverFields (rows : List FlatRow) : FieldMap :=
  rows.foldl (fun m row => row.foldl (fun m2 p => discoverStep m2 p.1 p.2) m) []

/-- The binary type merge realized by `discoverStep` on an already-present
column: keep the old type unless the new observation is `STRING`. -/
def mergeType (old new : JStr) : JStr :=
  if old ≠ jstr "STRING" ∧ new = jstr "STRING" then new else old

/-- `baseSchema.forEach(field => discoveredFields.set(field.name, field.type))`. -/
def applyBaseSchema (m : FieldMap) (baseSchema : List Field) : FieldMap :=
  baseSchema.foldl (fun acc f => setKey acc f.name f.type) m

/-- `finalSchema`: the overlaid map, read back as a field list. -/
def finalSchemaOf (baseSchema : List Field) (rows : List FlatRow) : List Field :=
  (applyBaseSchema (discoverFields rows) baseSchema).map (fun p => ⟨p.1, p.2⟩)

/-! ## Schema Reconciler and Write Coordinator -/

/-- A destination table: its column list and its stored rows. -/
structure BQTable where
  schemaFields : List Field
  rows : List FlatRow

/-- The dataset: tables by identifier. -/
abbrev BQState := List (JStr × BQTable)

/-- The destination-store calls that `manageSchemaAndInsert` can issue. -/
inductive BQOp : Type where
  | existsCheck (tableId : JStr)
  | createTable (tableId : JStr) (schema : List Field)
  | getMetadata (tableId : JStr)
  | setMetadata (tableId : JStr) (schema : List Field)
  | insertAttempt (tableId : JStr)

/-- Outcome classification of one `manageSchemaAndInsert` call. -/
inductive MErr : Type where
  | parseError
  | insertError (code : Nat)
deriving DecidableEq

def stateLookup (st : BQState) (tableId : JStr) : Option BQTable :=
  lookupKey st tableId

def stateSetSchema (st : BQState) (tableId : JStr) (schema : List Field) : BQState :=
  st.map (fun p => if p.1 = tableId then (p.1, ⟨schema, p.2.rows⟩) else p)

def stateInsertRows (st : BQState) (tableId : JStr) (newRows : List FlatRow) : BQState :=
  st.map (fun p => if p.1 = tableId then (p.1, ⟨p.2.schemaFields, p.2.rows ++ newRows⟩) else p)

/-- The reconcile decision taken against the destination
(`server.js` lines 148-161). -/
inductive ReconcileAction : Type where
  | created (schema : List Field)
  | altered (added : List Field)
  | unchanged

/-- Schema reconciliation: `exists` → compute `fieldsToAdd` and alter when
non-empty; missing table → create with the full final schema. Returns the
table's resulting column list and the action. -/
def reconcileSchema (existing : Option (List Field)) (finalSchema : List Field) :
    List Field × ReconcileAction :=
  match existing with
  | none => (finalSchema, .created finalSchema)
  | some fields =>
    let existingNames := fields.map Field.name
    let fieldsToAdd := finalSchema.filter (fun f => decide (f.name ∉ existingNames))
    if fieldsToAdd.length > 0 then (fields ++ fieldsToAdd, .altered fieldsToAdd)
    else (fields, .unchanged)

/-- `maxAttempts` of the insert retry loop. -/
def maxAttempts : Nat := 5

/-- The base `delay` (milliseconds) of the insert retry loop. -/
def baseDelay : Nat := 2000

/-- An insert-outcome oracle: for each attempt index, `none` means the
insert succeeds, `some code` means it fails with that error code. This
models the nondeterministic behaviour of `table.insert`. -/
abbrev InsertOracle := Nat → Option Nat

/-- The `while (attempts < maxAttempts)` retry loop (`server.js` lines
163-183), structurally recursive on the remaining fuel
`maxAttempts - attempts`. Returns the updated state, the issued insert
attempts, the waits (in ms) performed between attempts, and the outcome.
Falling out of the loop (unreachable from `attempts = 0`) returns normally,
as the JavaScript function does. -/
def insertRetryAux (oracle : InsertOracle) (tableId : JStr) (rows : List FlatRow)
    (st : BQState) : Nat → Nat → BQState × List BQOp × List Nat × Except MErr Unit
  | _, 0 => (st, [], [], .ok ())
  | attempts, fuel + 1 =>
    match oracle attempts with
    | none => (stateInsertRows st tableId rows, [.insertAttempt tableId], [], .ok ())
    | some code =>
      if code = 404 ∧ attempts < maxAttempts - 1 then
        let next := insertRetryAux oracle tableId rows st (attempts + 1) fuel
        (next.1, .insertAttempt tableId :: next.2.1,
         baseDelay * (attempts + 1) :: next.2.2.1, next.2.2.2)
      else (st, [.insertAttempt tableId], [], .error (.insertError code))

/-- The retry loop entered with a given starting attempt counter. -/
def insertWithRetry (oracle : InsertOracle) (tableId : JStr) (rows : List FlatRow)
    (st : BQState) (attempts : Nat) : BQState × List BQOp × List Nat × Except MErr Unit :=
  insertRetryAux oracle tableId rows st attempts (maxAttempts - attempts)

/-- Everything `manageSchemaAndInsert` does besides registering the table id:
materialize, discover, reconcile, insert with retry. -/
def manageCore (oracle : InsertOracle) (tableId : JStr) (baseSchema : List Field)
    (rows : List RawRecord) (dynKey : DynKey) (st : BQState) :
    BQState × List BQOp × Except MErr Unit :=
  if rows.length = 0 then (st, [], .ok ())
  else
    match materializeRows baseSchema dynKey rows with
    | .error _ => (st, [], .error .parseError)
    | .ok flattenedRows =>
      let finalSchema := finalSchemaOf baseSchema flattenedRows
      let existing := (stateLookup st tableId).map BQTable.schemaFields
      let rec0 := reconcileSchema existing finalSchema
      let st1 :=
        match existing with
        | none => st ++ [(tableId, ⟨rec0.1, []⟩)]
        | some _ => stateSetSchema st tableId rec0.1
      let ops0 :=
        BQOp.existsCheck tableId ::
        (match rec0.2 with
         | .created s => [BQOp.createTable tableId s]
         | .altered _ => [BQOp.getMetadata tableId, BQOp.setMetadata tableId rec0.1]
         | .unchanged => [BQOp.getMetadata tableId])
      let ins := insertWithRetry oracle tableId flattenedRows st1 0
      (ins.1, ops0 ++ ins.2.1, ins.2.2.2)

/-- `Set.prototype.add` on the processed-tables registry. -/
def setAdd (s : List JStr) (x : JStr) : List JStr :=
  if x ∈ s then s else s ++ [x]

/-- `manageSchemaAndInsert` of `server.js`: register the table id in the
shared processed-tables set, return at once on an empty row list, otherwise
run the core. -/
def manageSchemaAndInsert (oracle : InsertOracle) (tableId : JStr)
    (baseSchema : List Field) (rows : List RawRecord) (dynKey : DynKey)
    (pset : List JStr) (st : BQState) :
    List JStr × BQState × List BQOp × Except MErr Unit :=
  let core := manageCore oracle tableId baseSchema rows dynKey st
  (setAdd pset tableId, core.1, core.2.1, core.2.2)

/-! ## File processing (`processFile`, `server.js` lines 197-236) -/

/-- Per-table insert-outcome oracles for a whole processing pass. -/
abbrev TableOracles := JStr → InsertOracle

/-- The three logical file kinds of the upload. -/
inductive FileType : Type where
  | identifies
  | groups
  | events

/-- `acc[tableName].push(event)` with `acc[tableName] ||= []` of the
`tracksByName` reduce. Plain insertion order (the reordering JavaScript
applies to integer-like object keys is not modelled; no property below
depends on the enumeration order of the grouped tables). -/
def groupAdd (acc : List (JStr × List RawRecord)) (k : JStr) (r : RawRecord) :
    List (JStr × List RawRecord) :=
  match acc with
  | [] => [(k, [r])]
  | p :: rest => if p.1 = k then (p.1, p.2 ++ [r]) :: rest else p :: groupAdd rest k r

/-- The `for (const [tableId, tableRows] of Object.entries(tracksByName))`
loop: one `manageSchemaAndInsert` per grouped event table, aborting on the
first failure. -/
def manageEventTables (oracles : TableOracles) :
    List (JStr × List RawRecord) → List JStr → BQState →
    List JStr × BQState × List BQOp × Except MErr Unit
  | [], pset, st => (pset, st, [], .ok ())
  | (tableId, tableRows) :: rest, pset, st =>
    let r := manageSchemaAndInsert (oracles tableId) tableId TRACKS_SCHEMA
      tableRows .properties pset st
    match r.2.2.2 with
    | .error e => (r.1, r.2.1, r.2.2.1, .error e)
    | .ok _ =>
      let rr := manageEventTables oracles rest r.1 r.2.1
      (rr.1, rr.2.1, r.2.2.1 ++ rr.2.2.1, rr.2.2.2)

/-- One step of the `tracksByName` reduce (`server.js` lines 219-225): route
the track event to its sanitized table name, registering the name in the
shared processed-tables set. -/
def routeStep (pa : List JStr × List (JStr × List RawRecord)) (ev : RawRecord) :
    List JStr × List (JStr × List RawRecord) :=
  let tableName := sanitizeTableName (ev.name.getD [])
  (setAdd pa.1 tableName, groupAdd pa.2 tableName ev)

/-- The routing part of the events branch, executed whether or not the run
is dry: the conditional `pages`/`tracks` registrations and the
`tracksByName` reduce. Returns the updated registry and the grouped track
rows. -/
def eventsRouting (rows : List RawRecord) (pset : List JStr) :
    List JStr × List (JStr × List RawRecord) :=
  let pageRows := rows.filter (fun r => decide (r.rtype = some (jstr "0")))
  let trackRows := rows.filter (fun r => decide (r.rtype = some (jstr "2")))
  let pset1 := if pageRows.length > 0 then setAdd pset (jstr "pages") else pset
  let pset2 := if trackRows.length > 0 then setAdd pset1 (jstr "tracks") else pset1
  trackRows.foldl routeStep (pset2, [])

/-- The write part of the identifies branch: `identifies` then `users`,
aborting on the first failure. -/
def identifiesNonDry (oracles : TableOracles) (rows : List RawRecord)
    (pset : List JStr) (st : BQState) :
    List JStr × BQState × List BQOp × Except MErr Unit :=
  let r1 := manageSchemaAndInsert (oracles (jstr "identifies"))
    (jstr "identifies") IDENTIFIES_SCHEMA rows .traits pset st
  match r1.2.2.2 with
  | .error e => (r1.1, r1.2.1, r1.2.2.1, .error e)
  | .ok _ =>
    let r2 := manageSchemaAndInsert (oracles (jstr "users")) (jstr "users")
      USERS_SCHEMA rows .traits r1.1 r1.2.1
    (r2.1, r2.2.1, r1.2.2.1 ++ r2.2.2.1, r2.2.2.2)

/-- The write part of the events branch: `pages`, then `tracks`, then one
table per grouped event name, aborting on the first failure. -/
def eventsNonDry (oracles : TableOracles) (pageRows trackRows : List RawRecord)
    (grouped : List (JStr × List RawRecord)) (pset : List JStr) (st : BQState) :
    List JStr × BQState × List BQOp × Except MErr Unit :=
  let rp := manageSchemaAndInsert (oracles (jstr "pages")) (jstr "pages")
    PAGES_SCHEMA pageRows .properties pset st
  match rp.2.2.2 with
  | .error e => (rp.1, rp.2.1, rp.2.2.1, .error e)
  | .ok _ =>
    let rt := manageSchemaAndInsert (oracles (jstr "tracks")) (jstr "tracks")
      TRACKS_SCHEMA trackRows .properties rp.1 rp.2.1
    match rt.2.2.2 with
    | .error e => (rt.1, rt.2.1, rp.2.2.1 ++ rt.2.2.1, .error e)
    | .ok _ =>
      let re := manageEventTables oracles grouped rt.1 rt.2.1
      (re.1, re.2.1, rp.2.2.1 ++ rt.2.2.1 ++ re.2.2.1, re.2.2.2)

/-- `processFile` of `server.js`: returns the processed-tables registry, the
destination state, the trace of destination-store calls, and the outcome. -/
def processFile (oracles : TableOracles) (ftype : FileType) (rows : List RawRecord)
    (pset : List JStr) (isDryRun : Bool) (st : BQState) :
    List JStr × BQState × List BQOp × Except MErr Unit :=
  match ftype with
  | .identifies =>
    let pset1 := setAdd (setAdd pset (jstr "identifies")) (jstr "users")
    if isDryRun then (pset1, st, [], .ok ())
    else identifiesNonDry oracles rows pset1 st
  | .groups =>
    let pset1 := setAdd pset (jstr "_groups")
    if isDryRun then (pset1, st, [], .ok ())
    else manageSchemaAndInsert (oracles (jstr "_groups")) (jstr "_groups")
      GROUPS_SCHEMA rows .traits pset1 st
  | .events =>
    let pageRows := rows.filter (fun r => decide (r.rtype = some (jstr "0")))
    let trackRows := rows.filter (fun r => decide (r.rtype = some (jstr "2")))
    let reduced := eventsRouting rows pset
    if isDryRun then (reduced.1, st, [], .ok ())
    else eventsNonDry oracles pageRows trackRows reduced.2 reduced.1 st

/-! ## Spec-side characterizations and concrete inputs used by the claims -/

/-- Spec-side reading of a string "beginning with an ISO-8601-like date-time
prefix of the shape YYYY-MM-DDTHH:MM:SS": 19 leading code points, digits in
the date and time positions, `-` (45) after year and month, `T` (84) before
the time, `:` (58) between its components. Stated independently of the
`matchesTimestampShape` pattern so the two can be proved equivalent. -/
def isoTimestampStart (s : JStr) : Prop :=
  ∃ (y1 y2 y3 y4 o1 o2 a1 a2 h1 h2 i1 i2 e1 e2 : Nat) (rest : JStr),
    s = y1 :: y2 :: y3 :: y4 :: 45 :: o1 :: o2 :: 45 :: a1 :: a2 :: 84 ::
        h1 :: h2 :: 58 :: i1 :: i2 :: 58 :: e1 :: e2 :: rest ∧
    ∀ c ∈ [y1, y2, y3, y4, o1, o2, a1, a2, h1, h2, i1, i2, e1, e2],
      48 ≤ c ∧ c ≤ 57

/-- The rational `n / 1`, built so that its fields reduce in the kernel. -/
def ratOfInt (n : Int) : Rat := ⟨n, 1, one_ne_zero, Nat.coprime_one_right _⟩

/-- The rational `1 / 2`, built so that its fields reduce in the kernel. -/
def ratHalf : Rat := ⟨1, 2, by decide, Nat.coprime_one_left 2⟩

/-- A record whose `context` column holds malformed JSON text and whose other
columns are absent. -/
def malformedContextRow : RawRecord :=
  ⟨none, none, none, none, none, none, none, none, none, none, none, none,
   some .malformed, none, none⟩

/-- A record with a message id and whose `traits` column holds the
well-formed JSON text `"not json"` (a JSON string, not an object). -/
def stringTraitsRow : RawRecord :=
  ⟨some (jstr "m1"), none, none, none, none, none, none, none, none, none,
   none, none, none, some (.json (.str (jstr "not json"))), none⟩

/-- An events-file row of track kind (`type = "2"`) named `x`. -/
def trackTypeRow : RawRecord :=
  ⟨none, none, none, none, none, none, none, none, none, none,
   some (jstr "x"), some (jstr "2"), none, none, none⟩

/-- An events-file row of page kind (`type = "0"`). -/
def pageTypeRow : RawRecord :=
  ⟨none, none, none, none, none, none, none, none, none, none,
   none, some (jstr "0"), none, none, none⟩

theorem wordLower_not_upper {c : Nat} (h : isWordLowerCode c = true) :
    isUpperCode c = false := by
  simp [isWordLowerCode, isLowerCode, isDigitCode, isUpperCode] at h ⊢
  omega

theorem wordLower_not_spaceHyphen {c : Nat} (h : isWordLowerCode c = true) :
    isSpaceHyphenCode c = false := by
  simp [isWordLowerCode, isLowerCode, isDigitCode, isSpaceHyphenCode] at h ⊢
  omega

theorem wordLower_word {c : Nat} (h : isWordLowerCode c = true) :
    isWordCode c = true := by
  simp [isWordLowerCode, isLowerCode, isDigitCode, isWordCode, isUpperCode] at h ⊢
  omega

theorem wordLower_toLower_self {c : Nat} (h : isWordLowerCode c = true) :
    toLowerCode c = c := by
  have hu := wordLower_not_upper h
  simp [toLowerCode, hu]

theorem word_toLower_wordLower {c : Nat} (h : isWordCode c = true) :
    isWordLowerCode (toLowerCode c) = true := by
  by_cases hu : isUpperCode c = true
  · have hc : 65 ≤ c ∧ c ≤ 90 := by simpa [isUpperCode] using hu
    have hl : isLowerCode (c + 32) = true := by
      simp only [isLowerCode, decide_eq_true_eq]
      omega
    simp [toLowerCode, hu, isWordLowerCode, hl]
  · have hu2 : isUpperCode c = false := by simpa using hu
    have hg : toLowerCode c = c := by simp [toLowerCode, hu2]
    rw [hg]
    simpa [isWordCode, isWordLowerCode, hu2] using h

theorem toLower_not_upper (c : Nat) : isUpperCode (toLowerCode c) = false := by
  by_cases hu : isUpperCode c = true
  · have hc : 65 ≤ c ∧ c ≤ 90 := by simpa [isUpperCode] using hu
    simp only [toLowerCode, hu, if_true]
    simp only [isUpperCode, decide_eq_false_iff_not]
    omega
  · have hu2 : isUpperCode c = false := by simpa using hu
    simp [toLowerCode, hu2]

theorem toLower_eq_95_iff (c : Nat) : toLowerCode c = 95 ↔ c = 95 := by
  by_cases hu : isUpperCode c = true
  · have hc : 65 ≤ c ∧ c ≤ 90 := by simpa [isUpperCode] using hu
    simp only [toLowerCode, hu, if_true]
    omega
  · have hu2 : isUpperCode c = false := by simpa using hu
    simp [toLowerCode, hu2]

/-! Identity of each pipeline stage on inputs already in normal form. -/

theorem insertUnderscore_id {s : JStr} (h : ∀ c ∈ s, isUpperCode c = false) :
    insertUnderscoreBeforeUpper s = s := by
  induction s with
  | nil => rfl
  | cons c rest ih =>
    have hc := h c (List.mem_cons_self c rest)
    simp [insertUnderscoreBeforeUpper, List.flatMap_cons, hc] at ih ⊢
    exact ih fun d hd => h d (List.mem_cons_of_mem c hd)

theorem camelToSnake_id {s : JStr} (h : ∀ c ∈ s, isUpperCode c = false) :
    camelToSnakeCase s = s := by
  induction s with
  | nil => rfl
  | cons c rest ih =>
    have hc := h c (List.mem_cons_self c rest)
    simp [camelToSnakeCase, List.flatMap_cons, hc] at ih ⊢
    exact ih fun d hd => h d (List.mem_cons_of_mem c hd)

theorem mem_camelToSnake_not_upper {s : JStr} {c : Nat}
    (h : c ∈ camelToSnakeCase s) : isUpperCode c = false := by
  induction s with
  | nil => simp [camelToSnakeCase] at h
  | cons a rest ih =>
    simp only [camelToSnakeCase, List.flatMap_cons] at h
    rcases List.mem_append.mp h with h1 | h2
    · by_cases ha : isUpperCode a = true
      · simp [ha] at h1
        rcases h1 with h1 | h1
        · simp [h1, isUpperCode]
        · rw [h1]; exact toLower_not_upper a
      · have ha2 : isUpperCode a = false := by simpa using ha
        simp [ha2] at h1
        rw [h1]
        exact ha2
    · exact ih h2

theorem collapseSpaceHyphen_id {s : JStr} (h : ∀ c ∈ s, isSpaceHyphenCode c = false) :
    collapseSpaceHyphen s = s := by
  induction s with
  | nil => rfl
  | cons c rest ih =>
    have hc := h c (List.mem_cons_self c rest)
    cases rest with
    | nil => simp [collapseSpaceHyphen, hc]
    | cons d r =>
      have hrest : collapseSpaceHyphen (d :: r) = d :: r :=
        ih fun e he => h e (List.mem_cons_of_mem c he)
      simp [collapseSpaceHyphen, hc, hrest]

theorem stripNonWord_id {s : JStr} (h : ∀ c ∈ s, isWordCode c = true) :
    stripNonWord s = s :=
  List.filter_eq_self.mpr h

theorem collapseUnderscores_id {s : JStr} (h : noDoubleUnderscore s = true) :
    collapseUnderscores s = s := by
  induction s with
  | nil => rfl
  | cons c rest ih =>
    cases rest with
    | nil => rfl
    | cons d r =>
      simp only [noDoubleUnderscore, Bool.and_eq_true, Bool.not_eq_true',
        decide_eq_false_iff_not] at h
      simp [collapseUnderscores, h.1, ih h.2]

theorem toLowerStr_id {s : JStr} (h : ∀ c ∈ s, isUpperCode c = false) :
    toLowerStr s = s := by
  induction s with
  | nil => rfl
  | cons c rest ih =>
    have hc := h c (List.mem_cons_self c rest)
    simp [toLowerStr, toLowerCode, hc] at ih ⊢
    exact ih fun d hd => h d (List.mem_cons_of_mem c hd)

theorem trimLeading_id {s : JStr} (h : headNot95 s = true) :
    trimLeadingUnderscore s = s := by
  cases s with
  | nil => rfl
  | cons c rest =>
    simp only [headNot95, Bool.not_eq_true', decide_eq_false_iff_not] at h
    simp [trimLeadingUnderscore, h]

theorem trimTrailing_id {s : JStr} (h : lastNot95 s = true) :
    trimTrailingUnderscore s = s := by
  induction s with
  | nil => rfl
  | cons c rest ih =>
    cases rest with
    | nil =>
      simp only [lastNot95, Bool.not_eq_true', decide_eq_false_iff_not] at h
      simp [trimTrailingUnderscore, h]
    | cons d r =>
      simp only [lastNot95] at h
      simp [trimTrailingUnderscore, ih h]

/-! Invariants established by the pipeline stages. -/

theorem mem_collapseUnderscores {c : Nat} {s : JStr}
    (h : c ∈ collapseUnderscores s) : c ∈ s := by
  induction s with
  | nil => simp [collapseUnderscores] at h
  | cons a rest ih =>
    cases rest with
    | nil => simpa [collapseUnderscores] using h
    | cons d r =>
      by_cases hc : a = 95 ∧ d = 95
      · simp only [collapseUnderscores, if_pos hc] at h
        exact List.mem_cons_of_mem a (ih h)
      · simp only [collapseUnderscores, if_neg hc] at h
        rcases List.mem_cons.mp h with h1 | h2
        · exact h1 ▸ List.mem_cons_self a _
        · exact List.mem_cons_of_mem a (ih h2)

theorem collapseUnderscores_cons_ne {d : Nat} {t : JStr} (hd : d ≠ 95) :
    collapseUnderscores (d :: t) = d :: collapseUnderscores t := by
  cases t with
  | nil => rfl
  | cons e r =>
    have hne : ¬(d = 95 ∧ e = 95) := fun h => hd h.1
    simp only [collapseUnderscores, if_neg hne]

theorem noDoubleUnderscore_cons_of {a : Nat} {l : JStr}
    (h1 : noDoubleUnderscore l = true)
    (h2 : ∀ b t, l = b :: t → ¬(a = 95 ∧ b = 95)) :
    noDoubleUnderscore (a :: l) = true := by
  cases l with
  | nil => rfl
  | cons b t =>
    simp only [noDoubleUnderscore, Bool.and_eq_true, Bool.not_eq_true',
      decide_eq_false_iff_not]
    exact ⟨h2 b t rfl, h1⟩

theorem noDoubleUnderscore_collapse (s : JStr) :
    noDoubleUnderscore (collapseUnderscores s) = true := by
  induction s with
  | nil => rfl
  | cons a rest ih =>
    cases rest with
    | nil => rfl
    | cons d r =>
      by_cases hc : a = 95 ∧ d = 95
      · simpa [collapseUnderscores, hc] using ih
      · rw [collapseUnderscores, if_neg hc]
        refine noDoubleUnderscore_cons_of ih ?_
        intro b t hbt hab
        by_cases hd : d = 95
        · exact hc ⟨hab.1, hd⟩
        · rw [collapseUnderscores_cons_ne hd] at hbt
          injection hbt with hdb _
          exact hd (by rw [hdb]; exact hab.2)

theorem noDoubleUnderscore_tail {a : Nat} {l : JStr}
    (h : noDoubleUnderscore (a :: l) = true) : noDoubleUnderscore l = true := by
  cases l with
  | nil => rfl
  | cons b t =>
    simp only [noDoubleUnderscore, Bool.and_eq_true] at h
    exact h.2

theorem mem_toLowerStr {c : Nat} {s : JStr} (h : c ∈ toLowerStr s) :
    ∃ d ∈ s, c = toLowerCode d := by
  rcases List.mem_map.mp h with ⟨d, hd, hcd⟩
  exact ⟨d, hd, hcd.symm⟩

theorem noDoubleUnderscore_toLower {s : JStr} (h : noDoubleUnderscore s = true) :
    noDoubleUnderscore (toLowerStr s) = true := by
  induction s with
  | nil => rfl
  | cons a rest ih =>
    cases rest with
    | nil => rfl
    | cons b t =>
      simp only [noDoubleUnderscore, Bool.and_eq_true, Bool.not_eq_true',
        decide_eq_false_iff_not] at h
      have ht := ih h.2
      simp only [toLowerStr, List.map_cons] at ht ⊢
      simp only [noDoubleUnderscore, Bool.and_eq_true, Bool.not_eq_true',
        decide_eq_false_iff_not]
      refine ⟨?_, ht⟩
      intro hab
      exact h.1 ⟨(toLower_eq_95_iff a).mp hab.1, (toLower_eq_95_iff b).mp hab.2⟩

theorem mem_trimLeading {c : Nat} {s : JStr} (h : c ∈ trimLeadingUnderscore s) :
    c ∈ s := by
  cases s with
  | nil => simp [trimLeadingUnderscore] at h
  | cons a rest =>
    by_cases ha : a = 95
    · simp only [trimLeadingUnderscore, if_pos ha] at h
      exact List.mem_cons_of_mem a h
    · simpa [trimLeadingUnderscore, ha] using h

theorem mem_trimTrailing {c : Nat} {s : JStr} (h : c ∈ trimTrailingUnderscore s) :
    c ∈ s := by
  induction s with
  | nil => simp [trimTrailingUnderscore] at h
  | cons a rest ih =>
    cases rest with
    | nil =>
      by_cases ha : a = 95
      · simp [trimTrailingUnderscore, ha] at h
      · simp only [trimTrailingUnderscore, if_neg ha] at h
        exact h
    | cons d r =>
      simp only [trimTrailingUnderscore] at h
      rcases List.mem_cons.mp h with h1 | h2
      · exact h1 ▸ List.mem_cons_self a _
      · exact List.mem_cons_of_mem a (ih h2)

theorem noDoubleUnderscore_trimLeading {s : JStr}
    (h : noDoubleUnderscore s = true) :
    noDoubleUnderscore (trimLeadingUnderscore s) = true := by
  cases s with
  | nil => rfl
  | cons a rest =>
    by_cases ha : a = 95
    · rw [trimLeadingUnderscore, if_pos ha]
      exact noDoubleUnderscore_tail h
    · rwa [trimLeadingUnderscore, if_neg ha]

theorem headNot95_trimLeading {s : JStr} (h : noDoubleUnderscore s = true) :
    headNot95 (trimLeadingUnderscore s) = true := by
  cases s with
  | nil => rfl
  | cons a rest =>
    by_cases ha : a = 95
    · rw [trimLeadingUnderscore, if_pos ha]
      cases rest with
      | nil => rfl
      | cons b t =>
        simp only [noDoubleUnderscore, Bool.and_eq_true, Bool.not_eq_true',
          decide_eq_false_iff_not] at h
        have hb : b ≠ 95 := fun hb => h.1 ⟨ha, hb⟩
        simp [headNot95, hb]
    · simp [trimLeadingUnderscore, ha, headNot95]

theorem noDoubleUnderscore_trimTrailing {s : JStr}
    (h : noDoubleUnderscore s = true) :
    noDoubleUnderscore (trimTrailingUnderscore s) = true := by
  induction s with
  | nil => rfl
  | cons a rest ih =>
    cases rest with
    | nil =>
      by_cases ha : a = 95 <;> simp [trimTrailingUnderscore, ha, noDoubleUnderscore]
    | cons b t =>
      simp only [noDoubleUnderscore, Bool.and_eq_true, Bool.not_eq_true',
        decide_eq_false_iff_not] at h
      have ht := ih h.2
      rw [trimTrailingUnderscore]
      refine noDoubleUnderscore_cons_of ht ?_
      intro c u hcu hac
      cases t with
      | nil =>
        by_cases hb : b = 95
        · simp [trimTrailingUnderscore, hb] at hcu
        · simp only [trimTrailingUnderscore, if_neg hb] at hcu
          injection hcu with hbc _
          exact hb (by rw [hbc]; exact hac.2)
      | cons e r =>
        simp only [trimTrailingUnderscore] at hcu
        injection hcu with hbc _
        exact h.1 ⟨hac.1, by rw [hbc]; exact hac.2⟩

theorem headNot95_trimTrailing {s : JStr} (h : headNot95 s = true) :
    headNot95 (trimTrailingUnderscore s) = true := by
  cases s with
  | nil => rfl
  | cons a rest =>
    simp only [headNot95, Bool.not_eq_true', decide_eq_false_iff_not] at h
    cases rest with
    | nil =>
      by_cases ha : a = 95 <;> simp [trimTrailingUnderscore, ha, headNot95]
    | cons b t => simp [trimTrailingUnderscore, headNot95, h]

theorem lastNot95_trimTrailing {s : JStr} (h : noDoubleUnderscore s = true) :
    lastNot95 (trimTrailingUnderscore s) = true := by
  induction s with
  | nil => rfl
  | cons a rest ih =>
    cases rest with
    | nil =>
      by_cases ha : a = 95 <;> simp [trimTrailingUnderscore, ha, lastNot95]
    | cons b t =>
      simp only [noDoubleUnderscore, Bool.and_eq_true, Bool.not_eq_true',
        decide_eq_false_iff_not] at h
      have ht := ih h.2
      rw [trimTrailingUnderscore]
      cases t with
      | nil =>
        by_cases hb : b = 95
        · have ha : a ≠ 95 := fun ha => h.1 ⟨ha, hb⟩
          simp [trimTrailingUnderscore, hb, lastNot95, ha]
        · simp [trimTrailingUnderscore, hb, lastNot95]
      | cons e r => exact ht

/-! Assembly: the pipeline output is in normal form, and the pipeline is the
identity on normal forms. -/

theorem sanitizedForm_pipeline {x : JStr} (h : sanitizePipeline x ≠ []) :
    sanitizedForm (sanitizePipeline x) = true := by
  rw [sanitizePipeline] at h ⊢
  rw [trimEdgeUnderscores] at h ⊢
  have pall1 : ∀ c ∈ stripNonWord (collapseSpaceHyphen (insertUnderscoreBeforeUpper x)),
      isWordCode c = true := fun c hc => List.of_mem_filter hc
  have pall2 : ∀ c ∈ collapseUnderscores
      (stripNonWord (collapseSpaceHyphen (insertUnderscoreBeforeUpper x))),
      isWordCode c = true := fun c hc => pall1 c (mem_collapseUnderscores hc)
  have pall3 : ∀ c ∈ toLowerStr (collapseUnderscores
      (stripNonWord (collapseSpaceHyphen (insertUnderscoreBeforeUpper x)))),
      isWordLowerCode c = true := by
    intro c hc
    rcases mem_toLowerStr hc with ⟨d, hd, rfl⟩
    exact word_toLower_wordLower (pall2 d hd)
  have pnd3 : noDoubleUnderscore (toLowerStr (collapseUnderscores
      (stripNonWord (collapseSpaceHyphen (insertUnderscoreBeforeUpper x))))) = true :=
    noDoubleUnderscore_toLower (noDoubleUnderscore_collapse _)
  have pndL := noDoubleUnderscore_trimLeading pnd3
  have phL := headNot95_trimLeading pnd3
  simp only [sanitizedForm, Bool.and_eq_true, Bool.not_eq_true',
    decide_eq_false_iff_not, List.all_eq_true]
  refine ⟨⟨⟨⟨h, ?_⟩, noDoubleUnderscore_trimTrailing pndL⟩,
    headNot95_trimTrailing phL⟩, lastNot95_trimTrailing pndL⟩
  exact fun c hc => pall3 c (mem_trimLeading (mem_trimTrailing hc))

theorem sanitize_of_sanitizedForm {y : JStr} (h : sanitizedForm y = true) :
    sanitizeTableName y = y := by
  simp only [sanitizedForm, Bool.and_eq_true, Bool.not_eq_true',
    decide_eq_false_iff_not, List.all_eq_true] at h
  obtain ⟨⟨⟨⟨hne, hall⟩, hnd⟩, hh⟩, hl⟩ := h
  have hup : ∀ c ∈ y, isUpperCode c = false := fun c hc => wordLower_not_upper (hall c hc)
  have hpipe : sanitizePipeline y = y := by
    rw [sanitizePipeline, trimEdgeUnderscores,
      insertUnderscore_id hup,
      collapseSpaceHyphen_id (fun c hc => wordLower_not_spaceHyphen (hall c hc)),
      stripNonWord_id (fun c hc => wordLower_word (hall c hc)),
      collapseUnderscores_id hnd,
      toLowerStr_id hup,
      trimLeading_id hh,
      trimTrailing_id hl]
  rw [sanitizeTableName, if_neg hne, hpipe, if_neg hne]

theorem sanitizedForm_unknown : sanitizedForm (jstr "unknown_event") = true := by decide

theorem sanitizedForm_sanitize (x : JStr) :
    sanitizedForm (sanitizeTableName x) = true := by
  rw [sanitizeTableName]
  by_cases hx : x = []
  · rw [if_pos hx]; exact sanitizedForm_unknown
  · rw [if_neg hx]
    by_cases hp : sanitizePipeline x = []
    · rw [if_pos hp]; exact sanitizedForm_unknown
    · rw [if_neg hp]; exact sanitizedForm_pipeline hp

/-- C6: key normalization is deterministic and idempotent: for every input
string `x`, `normalize (normalize x) = normalize x`, both for the
table-routing normalizer `sanitizeTableName` and for the field-name
normalizer `camelToSnakeCase`. Determinism holds because both are pure
functions of their argument. -/
theorem c6_key_normalization_idempotent :
    (∀ x : JStr, sanitizeTableName (sanitizeTableName x) = sanitizeTableName x) ∧
    (∀ x : JStr, camelToSnakeCase (camelToSnakeCase x) = camelToSnakeCase x) := by
  constructor
  · intro x
    exact sanitize_of_sanitizedForm (sanitizedForm_sanitize x)
  · intro x
    exact camelToSnake_id fun c hc => mem_camelToSnake_not_upper hc

/-! ## Association-list lemmas -/

theorem lookup_setKey_self {α : Type} (m : List (JStr × α)) (k : JStr) (v : α) :
    lookupKey (setKey m k v) k = some v := by
  induction m with
  | nil => simp [setKey, lookupKey]
  | cons p rest ih =>
    by_cases hp : p.1 = k
    · simp [setKey, hp, lookupKey]
    · simp [setKey, hp, lookupKey, ih]

theorem lookup_setKey_ne {α : Type} (m : List (JStr × α)) {k k2 : JStr} (v : α)
    (h : k ≠ k2) : lookupKey (setKey m k v) k2 = lookupKey m k2 := by
  induction m with
  | nil => simp [setKey, lookupKey, h]
  | cons p rest ih =>
    by_cases hp : p.1 = k
    · simp [setKey, hp, lookupKey, h, hp ▸ h]
    · simp only [setKey, if_neg hp, lookupKey]
      by_cases hp2 : p.1 = k2
      · simp [hp2]
      · simp [hp2, ih]

/-! ## C2: the type merge -/

/-- C2 counterexample: scanning an integer observation then a float
observation for the same column leaves the discovered type at `INT64`,
not `FLOAT64` as the claimed merge table requires, and scanning the two
rows in the opposite order yields `FLOAT64` — so the discovered type is
also order-dependent. -/
theorem c2_counterexample :
    lookupKey (discoverFields
        [[(jstr "a", .num (ratOfInt 1))], [(jstr "a", .num ratHalf)]]) (jstr "a") =
      some (jstr "INT64") ∧
    jstr "INT64" ≠ jstr "FLOAT64" ∧
    lookupKey (discoverFields
        [[(jstr "a", .num ratHalf)], [(jstr "a", .num (ratOfInt 1))]]) (jstr "a") =
      some (jstr "FLOAT64") :=
  ⟨rfl, by decide, rfl⟩

/-- C2 amended: the merge the discovery loop realizes on a column that is
already present keeps the previously discovered type unless the new
observation is `STRING`, which is absorbing. Hence `merge (X, X) = X` and a
column observed as `STRING` never narrows back, but the merge is not
commutative and not the claimed table: `merge (INT64, FLOAT64) = INT64`,
and the discovered type depends on the order rows are scanned. -/
theorem c2_type_merge_first_observation_wins :
    (∀ (m : FieldMap) (k : JStr) (v : Json) (old : JStr),
      lookupKey m k = some old →
      lookupKey (discoverStep m k v) k = some (mergeType old (inferBigQueryType v))) ∧
    (∀ x, mergeType x x = x) ∧
    (∀ y, mergeType (jstr "STRING") y = jstr "STRING") ∧
    (∀ x, mergeType x (jstr "STRING") = jstr "STRING") ∧
    (∀ x y, y ≠ jstr "STRING" → mergeType x y = x) ∧
    mergeType (jstr "INT64") (jstr "FLOAT64") = jstr "INT64" := by
  refine ⟨?_, ?_, ?_, ?_, ?_, by decide⟩
  · intro m k v old hold
    rw [discoverStep]
    rw [hold]
    simp only [mergeType]
    by_cases hc : old ≠ jstr "STRING" ∧ inferBigQueryType v = jstr "STRING"
    · rw [if_pos hc, if_pos hc, lookup_setKey_self]
    · rw [if_neg hc, if_neg hc, hold]
  · intro x
    rw [mergeType]
    by_cases hx : x = jstr "STRING"
    · simp [hx]
    · simp [hx]
  · intro y
    rw [mergeType]
    simp
  · intro x
    rw [mergeType]
    by_cases hx : x = jstr "STRING" <;> simp [hx]
  · intro x y hy
    rw [mergeType]
    simp [hy]

/-- Witness for the C2 amended theorem: a non-`STRING` new observation
leaves the old type in place. -/
theorem c2_witness :
    mergeType (jstr "TIMESTAMP") (jstr "INT64") = jstr "TIMESTAMP" :=
  c2_type_merge_first_observation_wins.2.2.2.2.1 (jstr "TIMESTAMP") (jstr "INT64")
    (by decide)

/-! ## C9: the Type Inferencer -/

theorem matchesTimestampShape_iff (s : JStr) :
    matchesTimestampShape s = true ↔ isoTimestampStart s := by
  constructor
  · intro h
    rcases s with _ | ⟨y1, s⟩
    · exact absurd h (by simp [matchesTimestampShape])
    rcases s with _ | ⟨y2, s⟩
    · exact absurd h (by simp [matchesTimestampShape])
    rcases s with _ | ⟨y3, s⟩
    · exact absurd h (by simp [matchesTimestampShape])
    rcases s with _ | ⟨y4, s⟩
    · exact absurd h (by simp [matchesTimestampShape])
    rcases s with _ | ⟨u1, s⟩
    · exact absurd h (by simp [matchesTimestampShape])
    rcases s with _ | ⟨o1, s⟩
    · exact absurd h (by simp [matchesTimestampShape])
    rcases s with _ | ⟨o2, s⟩
    · exact absurd h (by simp [matchesTimestampShape])
    rcases s with _ | ⟨u2, s⟩
    · exact absurd h (by simp [matchesTimestampShape])
    rcases s with _ | ⟨a1, s⟩
    · exact absurd h (by simp [matchesTimestampShape])
    rcases s with _ | ⟨a2, s⟩
    · exact absurd h (by simp [matchesTimestampShape])
    rcases s with _ | ⟨tc, s⟩
    · exact absurd h (by simp [matchesTimestampShape])
    rcases s with _ | ⟨h1, s⟩
    · exact absurd h (by simp [matchesTimestampShape])
    rcases s with _ | ⟨h2, s⟩
    · exact absurd h (by simp [matchesTimestampShape])
    rcases s with _ | ⟨c1, s⟩
    · exact absurd h (by simp [matchesTimestampShape])
    rcases s with _ | ⟨i1, s⟩
    · exact absurd h (by simp [matchesTimestampShape])
    rcases s with _ | ⟨i2, s⟩
    · exact absurd h (by simp [matchesTimestampShape])
    rcases s with _ | ⟨c2, s⟩
    · exact absurd h (by simp [matchesTimestampShape])
    rcases s with _ | ⟨e1, s⟩
    · exact absurd h (by simp [matchesTimestampShape])
    rcases s with _ | ⟨e2, rest⟩
    · exact absurd h (by simp [matchesTimestampShape])
    simp only [matchesTimestampShape, isDigitCode, Bool.and_eq_true,
      decide_eq_true_eq] at h
    obtain ⟨⟨⟨⟨⟨⟨⟨⟨⟨⟨⟨⟨⟨⟨⟨⟨⟨⟨hy1, hy2⟩, hy3⟩, hy4⟩, hu1⟩, ho1⟩, ho2⟩, hu2⟩,
      ha1⟩, ha2⟩, htc⟩, hh1⟩, hh2⟩, hc1⟩, hi1⟩, hi2⟩, hc2⟩, he1⟩, he2⟩ := h
    subst hu1 hu2 htc hc1 hc2
    refine ⟨y1, y2, y3, y4, o1, o2, a1, a2, h1, h2, i1, i2, e1, e2, rest, rfl, ?_⟩
    intro c hc
    simp only [List.mem_cons, List.not_mem_nil, or_false] at hc
    rcases hc with rfl | rfl | rfl | rfl | rfl | rfl | rfl | rfl | rfl | rfl |
      rfl | rfl | rfl | rfl <;> omega
  · rintro ⟨y1, y2, y3, y4, o1, o2, a1, a2, h1, h2, i1, i2, e1, e2, rest, rfl, hd⟩
    have hy1 := hd y1 (by simp)
    have hy2 := hd y2 (by simp)
    have hy3 := hd y3 (by simp)
    have hy4 := hd y4 (by simp)
    have ho1 := hd o1 (by simp)
    have ho2 := hd o2 (by simp)
    have ha1 := hd a1 (by simp)
    have ha2 := hd a2 (by simp)
    have hh1 := hd h1 (by simp)
    have hh2 := hd h2 (by simp)
    have hi1 := hd i1 (by simp)
    have hi2 := hd i2 (by simp)
    have he1 := hd e1 (by simp)
    have he2 := hd e2 (by simp)
    simp only [matchesTimestampShape, isDigitCode, Bool.and_eq_true,
      decide_eq_true_eq, and_true, true_and]
    omega

/-- C9: the Type Inferencer maps each scalar to exactly one column type by
the rules checked in order: booleans to `BOOL`; numbers with integral value
to `INT64`; all other numbers to `FLOAT64`; strings beginning with an
ISO-8601-like `YYYY-MM-DDTHH:MM:SS` shape to `TIMESTAMP`; every other value
(other strings, and the values of object type such as `null`, arrays and
objects) to `STRING`. The source's type names `BOOL`/`INT64`/`FLOAT64` are
the spec's `BOOLEAN`/`INTEGER`/`FLOAT`. -/
theorem c9_type_inferencer_rules :
    (∀ b, inferBigQueryType (.bool b) = jstr "BOOL") ∧
    (∀ q : Rat, q.den = 1 → inferBigQueryType (.num q) = jstr "INT64") ∧
    (∀ q : Rat, q.den ≠ 1 → inferBigQueryType (.num q) = jstr "FLOAT64") ∧
    (∀ s : JStr, isoTimestampStart s → inferBigQueryType (.str s) = jstr "TIMESTAMP") ∧
    (∀ s : JStr, ¬ isoTimestampStart s → inferBigQueryType (.str s) = jstr "STRING") ∧
    inferBigQueryType .null = jstr "STRING" ∧
    (∀ es, inferBigQueryType (.arr es) = jstr "STRING") ∧
    (∀ entries, inferBigQueryType (.obj entries) = jstr "STRING") := by
  refine ⟨fun b => rfl, ?_, ?_, ?_, ?_, rfl, fun es => rfl, fun entries => rfl⟩
  · intro q hq
    simp [inferBigQueryType, hq]
  · intro q hq
    simp [inferBigQueryType, hq]
  · intro s hs
    have := (matchesTimestampShape_iff s).mpr hs
    simp [inferBigQueryType, this]
  · intro s hs
    have : matchesTimestampShape s = false := by
      rcases hb : matchesTimestampShape s with _ | _
      · rfl
      · exact absurd ((matchesTimestampShape_iff s).mp hb) hs
    simp [inferBigQueryType, this]

/-- Witness for C9: one concrete application per hypothesis-bearing rule. -/
theorem c9_witness :
    inferBigQueryType (.num (ratOfInt 3)) = jstr "INT64" ∧
    inferBigQueryType (.num ratHalf) = jstr "FLOAT64" ∧
    inferBigQueryType (.str (jstr "2024-01-02T03:04:05")) = jstr "TIMESTAMP" ∧
    inferBigQueryType (.str (jstr "not json")) = jstr "STRING" :=
  ⟨c9_type_inferencer_rules.2.1 (ratOfInt 3) rfl,
   c9_type_inferencer_rules.2.2.1 ratHalf (by decide),
   c9_type_inferencer_rules.2.2.2.1 (jstr "2024-01-02T03:04:05")
     ⟨50, 48, 50, 52, 48, 49, 48, 50, 48, 51, 48, 52, 48, 53, [], rfl, by decide⟩,
   c9_type_inferencer_rules.2.2.2.2.1 (jstr "not json")
     (fun hs => absurd ((matchesTimestampShape_iff (jstr "not json")).mpr hs)
       (by decide))⟩

/-! ## Registry helpers -/

theorem mem_setAdd_self (s : List JStr) (x : JStr) : x ∈ setAdd s x := by
  unfold setAdd
  split
  · assumption
  · simp

theorem mem_setAdd_of_mem {s : List JStr} {x : JStr} (y : JStr) (h : x ∈ s) :
    x ∈ setAdd s y := by
  unfold setAdd
  split
  · exact h
  · exact List.mem_append_left _ h

theorem setAdd_eq_of_mem {s : List JStr} {x : JStr} (h : x ∈ s) : setAdd s x = s :=
  if_pos h

/-- C10: invoking the create-or-evolve-and-insert operation with an empty
row list registers the table identifier in the shared processed-tables set
and returns immediately with success: no destination-store call is issued
and the destination state is unchanged. -/
theorem c10_empty_rows_registers_and_returns :
    ∀ (oracle : InsertOracle) (tableId : JStr) (baseSchema : List Field)
      (dynKey : DynKey) (pset : List JStr) (st : BQState),
      manageSchemaAndInsert oracle tableId baseSchema [] dynKey pset st =
        (setAdd pset tableId, st, [], .ok ()) ∧
      tableId ∈ (manageSchemaAndInsert oracle tableId baseSchema [] dynKey pset st).1 := by
  intro oracle tableId baseSchema dynKey pset st
  exact ⟨rfl, mem_setAdd_self pset tableId⟩

/-! ## C4: the Schema Reconciler is strictly additive -/

/-- C4: against an existing table, reconciliation appends exactly the
finalized-schema columns whose names are absent from the existing column
set, never removing or retyping an existing column (the existing list is a
prefix of the result, unchanged); when every finalized name is already
present, nothing is altered. The spec's example instance
(existing `a, b` with discovered `b, c` alters by exactly `c`) is included. -/
theorem c4_schema_evolution_additive :
    (∀ (existing finalSchema : List Field),
      ∃ added : List Field,
        (reconcileSchema (some existing) finalSchema).1 = existing ++ added ∧
        (∀ f ∈ added, f ∈ finalSchema ∧ f.name ∉ existing.map Field.name) ∧
        (∀ f ∈ finalSchema, f.name ∉ existing.map Field.name → f ∈ added)) ∧
    (∀ (existing finalSchema : List Field),
      (∀ f ∈ finalSchema, f.name ∈ existing.map Field.name) →
      reconcileSchema (some existing) finalSchema = (existing, .unchanged)) ∧
    reconcileSchema (some [⟨jstr "a", jstr "STRING"⟩, ⟨jstr "b", jstr "STRING"⟩])
        [⟨jstr "b", jstr "STRING"⟩, ⟨jstr "c", jstr "INT64"⟩] =
      ([⟨jstr "a", jstr "STRING"⟩, ⟨jstr "b", jstr "STRING"⟩,
        ⟨jstr "c", jstr "INT64"⟩],
       .altered [⟨jstr "c", jstr "INT64"⟩]) := by
  refine ⟨?_, ?_, rfl⟩
  · intro existing finalSchema
    refine ⟨finalSchema.filter
      (fun f => decide (f.name ∉ existing.map Field.name)), ?_, ?_, ?_⟩
    · rw [reconcileSchema]
      split
      · rfl
      · rename_i hlen
        have h0 : (finalSchema.filter
            (fun f => decide (f.name ∉ existing.map Field.name))).length = 0 := by
          omega
        rw [List.length_eq_zero] at h0
        rw [h0, List.append_nil]
    · intro f hf
      have := List.mem_filter.mp hf
      exact ⟨this.1, by simpa using this.2⟩
    · intro f hf hname
      exact List.mem_filter.mpr ⟨hf, by simpa using hname⟩
  · intro existing finalSchema h
    rw [reconcileSchema]
    have h0 : finalSchema.filter
        (fun f => decide (f.name ∉ existing.map Field.name)) = [] := by
      rw [List.filter_eq_nil_iff]
      intro f hf
      simpa using h f hf
    rw [h0]
    rfl

/-- Witness for C4: when every discovered column name already exists, the
reconciler leaves the table untouched. -/
theorem c4_witness :
    reconcileSchema (some [⟨jstr "a", jstr "STRING"⟩, ⟨jstr "b", jstr "STRING"⟩])
        [⟨jstr "b", jstr "STRING"⟩] =
      ([⟨jstr "a", jstr "STRING"⟩, ⟨jstr "b", jstr "STRING"⟩], .unchanged) :=
  c4_schema_evolution_additive.2.1 _ _ (by decide)

/-! ## C8: base-schema overlay -/

theorem applyBase_lookup_not_mem (base : List Field) :
    ∀ (m : FieldMap) (k : JStr), (∀ f ∈ base, f.name ≠ k) →
      lookupKey (applyBaseSchema m base) k = lookupKey m k := by
  induction base with
  | nil => intro m k _; rfl
  | cons g rest ih =>
    intro m k h
    have hg : g.name ≠ k := h g (List.mem_cons_self g rest)
    show lookupKey (applyBaseSchema (setKey m g.name g.type) rest) k = lookupKey m k
    rw [ih _ k (fun f hf => h f (List.mem_cons_of_mem g hf)),
      lookup_setKey_ne _ _ hg]

/-- C8: when the finalized column-type mapping is built, every column name
present in the static base schema gets the base-schema type (base types win
over inferred ones), and every column absent from the base schema keeps the
type it got from discovery. -/
theorem c8_base_schema_wins :
    ∀ (baseSchema : List Field) (m : FieldMap),
      (baseSchema.map Field.name).Nodup →
      ((∀ f ∈ baseSchema,
          lookupKey (applyBaseSchema m baseSchema) f.name = some f.type) ∧
       (∀ k, (∀ f ∈ baseSchema, f.name ≠ k) →
          lookupKey (applyBaseSchema m baseSchema) k = lookupKey m k)) := by
  intro base
  induction base with
  | nil =>
    intro m _
    exact ⟨fun f hf => absurd hf (List.not_mem_nil f), fun k _ => rfl⟩
  | cons g rest ih =>
    intro m hnd
    simp only [List.map_cons, List.nodup_cons] at hnd
    refine ⟨?_, fun k hk => applyBase_lookup_not_mem _ m k hk⟩
    intro f hf
    rcases List.mem_cons.mp hf with rfl | hf2
    · have hrest : ∀ f2 ∈ rest, f2.name ≠ f.name := by
        intro f2 hf2 he
        exact hnd.1 (he ▸ List.mem_map_of_mem Field.name hf2)
      show lookupKey (applyBaseSchema (setKey m f.name f.type) rest) f.name =
        some f.type
      rw [applyBase_lookup_not_mem rest _ _ hrest, lookup_setKey_self]
    · exact (ih (setKey m g.name g.type) hnd.2).1 f hf2

/-- Witness for C8 at the real base schema: `id` is forced back to the base
type `STRING` even though discovery saw `INT64`, while the batch-only column
`extra` keeps its discovered type. -/
theorem c8_witness :
    lookupKey (applyBaseSchema
        [(jstr "id", jstr "INT64"), (jstr "extra", jstr "BOOL")] BASE_SCHEMA)
      (jstr "id") = some (jstr "STRING") ∧
    lookupKey (applyBaseSchema
        [(jstr "id", jstr "INT64"), (jstr "extra", jstr "BOOL")] BASE_SCHEMA)
      (jstr "extra") =
      lookupKey [(jstr "id", jstr "INT64"), (jstr "extra", jstr "BOOL")]
        (jstr "extra") := by
  have h := c8_base_schema_wins BASE_SCHEMA
    [(jstr "id", jstr "INT64"), (jstr "extra", jstr "BOOL")] (by decide)
  exact ⟨h.1 ⟨jstr "id", jstr "STRING"⟩ (by decide), h.2 (jstr "extra") (by decide)⟩

/-! ## C5: arrays in the Flattening Engine -/

/-- C5 counterexample: a top-level array handed to the Flattening Engine is
iterated like an object, producing one column per element index (`p_0`,
`p_1`) instead of the single serialized leaf under the prefixed key that the
claim requires for every input value. -/
theorem c5_counterexample :
    (flattenObject (.arr [.bool true, .bool false]) (jstr "p")).map Prod.fst =
      [jstr "p_0", jstr "p_1"] ∧
    (flattenObject (.arr [.bool true, .bool false]) (jstr "p")).map Prod.fst ≠
      [jstr "p"] := by
  exact ⟨rfl, by decide⟩

/-- C5 amended: every array occurring as a value inside an object is emitted
as exactly one leaf whose value is the array re-serialized to JSON text
under the normalized, prefixed key — both for a singleton object and as the
single-step contribution inside the general entry loop. A top-level array
input, however, is index-expanded (see the counterexample). -/
theorem c5_array_values_single_leaf :
    (∀ (pfx k : JStr) (a : List Json),
      flattenObject (.obj [(k, .arr a)]) pfx =
        [(composeKey pfx (camelToSnakeCase k), .str (stringifyJson (.arr a)))]) ∧
    (∀ (entries : List (JStr × Json)) (pfx : JStr) (acc : FlatRow)
        (k : JStr) (a : List Json),
      flattenLoop ((k, .arr a) :: entries) pfx acc =
        flattenLoop entries pfx
          (setKey acc (composeKey pfx (camelToSnakeCase k))
            (.str (stringifyJson (.arr a))))) :=
  ⟨fun _ _ _ => rfl, fun _ _ _ _ _ => rfl⟩

/-! ## C3: the insert retry loop -/

theorem insertWithRetry_done_ok {oracle : InsertOracle} {a : Nat}
    (ha : a < maxAttempts) (hok : oracle a = none) (tid : JStr)
    (rows : List FlatRow) (st : BQState) :
    insertWithRetry oracle tid rows st a =
      (stateInsertRows st tid rows, [.insertAttempt tid], [], .ok ()) := by
  rw [insertWithRetry]
  have hfuel : maxAttempts - a = (maxAttempts - (a + 1)) + 1 := by
    have ha5 : a < 5 := ha
    show 5 - a = (5 - (a + 1)) + 1
    omega
  rw [hfuel]
  simp only [insertRetryAux, hok]

theorem insertWithRetry_done_err {oracle : InsertOracle} {a c : Nat}
    (ha : a < maxAttempts) (hc : oracle a = some c)
    (hstop : ¬(c = 404 ∧ a < maxAttempts - 1)) (tid : JStr)
    (rows : List FlatRow) (st : BQState) :
    insertWithRetry oracle tid rows st a =
      (st, [.insertAttempt tid], [], .error (.insertError c)) := by
  rw [insertWithRetry]
  have hfuel : maxAttempts - a = (maxAttempts - (a + 1)) + 1 := by
    have ha5 : a < 5 := ha
    show 5 - a = (5 - (a + 1)) + 1
    omega
  rw [hfuel]
  simp only [insertRetryAux, hc]
  rw [if_neg hstop]

theorem insertWithRetry_step_404 {oracle : InsertOracle} {a : Nat}
    (ha : a < maxAttempts - 1) (h404 : oracle a = some 404) (tid : JStr)
    (rows : List FlatRow) (st : BQState) :
    insertWithRetry oracle tid rows st a =
      ((insertWithRetry oracle tid rows st (a + 1)).1,
       .insertAttempt tid :: (insertWithRetry oracle tid rows st (a + 1)).2.1,
       baseDelay * (a + 1) :: (insertWithRetry oracle tid rows st (a + 1)).2.2.1,
       (insertWithRetry oracle tid rows st (a + 1)).2.2.2) := by
  simp only [insertWithRetry]
  have hfuel : maxAttempts - a = (maxAttempts - (a + 1)) + 1 := by
    have ha5 : a < 5 - 1 := ha
    show 5 - a = (5 - (a + 1)) + 1
    omega
  rw [hfuel]
  simp only [insertRetryAux, h404]
  simp [ha]

theorem insertRetry_succeeds_after (oracle : InsertOracle) (tid : JStr)
    (rows : List FlatRow) (st : BQState) :
    ∀ (m a : Nat), a + m < maxAttempts →
      (∀ i, i < m → oracle (a + i) = some 404) → oracle (a + m) = none →
      insertWithRetry oracle tid rows st a =
        (stateInsertRows st tid rows,
         List.replicate (m + 1) (.insertAttempt tid),
         (List.range m).map (fun i => baseDelay * (a + i + 1)),
         .ok ()) := by
  intro m
  induction m with
  | zero =>
    intro a hlt h404 hok
    rw [Nat.add_zero] at hlt hok
    rw [insertWithRetry_done_ok hlt hok]
    rfl
  | succ m ih =>
    intro a hlt h404 hok
    have h0 : oracle a = some 404 := by
      have := h404 0 (Nat.succ_pos m)
      rwa [Nat.add_zero] at this
    have hlt5 : a + (m + 1) < 5 := hlt
    rw [insertWithRetry_step_404 (show a < 5 - 1 by omega) h0]
    rw [ih (a + 1) (by show a + 1 + m < 5; omega)
      (fun i hi => by
        have := h404 (i + 1) (by omega)
        rwa [show a + (i + 1) = a + 1 + i by omega] at this)
      (by rwa [show a + 1 + m = a + (m + 1) by omega])]
    have hdel : (List.range (m + 1)).map (fun i => baseDelay * (a + i + 1)) =
        baseDelay * (a + 1) ::
          (List.range m).map (fun i => baseDelay * (a + 1 + i + 1)) := by
      rw [List.range_succ_eq_map, List.map_cons, List.map_map]
      congr 1
      apply List.map_congr_left
      intro i _
      simp only [Function.comp_apply, Nat.succ_eq_add_one]
      congr 1
      omega
    rw [hdel]
    rfl

theorem insertRetry_exhausts (oracle : InsertOracle) (tid : JStr)
    (rows : List FlatRow) (st : BQState) :
    ∀ (k a : Nat), a + k + 1 = maxAttempts →
      (∀ i, a ≤ i → i < maxAttempts → oracle i = some 404) →
      insertWithRetry oracle tid rows st a =
        (st, List.replicate (k + 1) (.insertAttempt tid),
         (List.range k).map (fun i => baseDelay * (a + i + 1)),
         .error (.insertError 404)) := by
  intro k
  induction k with
  | zero =>
    intro a hk h404
    have hk5 : a + 0 + 1 = 5 := hk
    have h4 : oracle a = some 404 := h404 a (le_refl a) (by show a < 5; omega)
    rw [insertWithRetry_done_err (show a < 5 by omega) h4
      (by
        rintro ⟨_, hlt⟩
        have hlt5 : a < 5 - 1 := hlt
        omega)]
    rfl
  | succ k ih =>
    intro a hk h404
    have hk5 : a + (k + 1) + 1 = 5 := hk
    have h0 : oracle a = some 404 := h404 a (le_refl a) (by show a < 5; omega)
    rw [insertWithRetry_step_404 (show a < 5 - 1 by omega) h0]
    rw [ih (a + 1) (by show a + 1 + k + 1 = 5; omega)
      (fun i hi hi2 => h404 i (by omega) hi2)]
    have hdel : (List.range (k + 1)).map (fun i => baseDelay * (a + i + 1)) =
        baseDelay * (a + 1) ::
          (List.range k).map (fun i => baseDelay * (a + 1 + i + 1)) := by
      rw [List.range_succ_eq_map, List.map_cons, List.map_map]
      congr 1
      apply List.map_congr_left
      intro i _
      simp only [Function.comp_apply, Nat.succ_eq_add_one]
      congr 1
      omega
    rw [hdel]
    rfl

theorem insertRetry_fatal_after (oracle : InsertOracle) (tid : JStr)
    (rows : List FlatRow) (st : BQState) :
    ∀ (m a c : Nat), a + m < maxAttempts → c ≠ 404 →
      (∀ i, i < m → oracle (a + i) = some 404) → oracle (a + m) = some c →
      insertWithRetry oracle tid rows st a =
        (st, List.replicate (m + 1) (.insertAttempt tid),
         (List.range m).map (fun i => baseDelay * (a + i + 1)),
         .error (.insertError c)) := by
  intro m
  induction m with
  | zero =>
    intro a c hlt hc h404 herr
    rw [Nat.add_zero] at hlt herr
    rw [insertWithRetry_done_err hlt herr (fun hand => hc hand.1)]
    rfl
  | succ m ih =>
    intro a c hlt hc h404 herr
    have h0 : oracle a = some 404 := by
      have := h404 0 (Nat.succ_pos m)
      rwa [Nat.add_zero] at this
    have hlt5 : a + (m + 1) < 5 := hlt
    rw [insertWithRetry_step_404 (show a < 5 - 1 by omega) h0]
    rw [ih (a + 1) c (by show a + 1 + m < 5; omega) hc
      (fun i hi => by
        have := h404 (i + 1) (by omega)
        rwa [show a + (i + 1) = a + 1 + i by omega] at this)
      (by rwa [show a + 1 + m = a + (m + 1) by omega])]
    have hdel : (List.range (m + 1)).map (fun i => baseDelay * (a + i + 1)) =
        baseDelay * (a + 1) ::
          (List.range m).map (fun i => baseDelay * (a + 1 + i + 1)) := by
      rw [List.range_succ_eq_map, List.map_cons, List.map_map]
      congr 1
      apply List.map_congr_left
      intro i _
      simp only [Function.comp_apply, Nat.succ_eq_add_one]
      congr 1
      omega
    rw [hdel]
    rfl

/-- C3: entering the retry loop with attempt counter zero: (a) if the first
N−1 attempts fail with the transient error code 404 and attempt N succeeds,
with N at most the fixed maximum of 5 attempts, the loop returns success
after exactly N insert attempts, and the waits between attempts are the
linearly increasing `baseDelay * attemptNumber`; (b) if all 5 attempts fail
with 404, it surfaces the terminal 404 failure after exactly 5 attempts;
(c) a failure with any non-404 code is propagated immediately as a terminal
failure, with no further attempts and the error code preserved. -/
theorem c3_write_coordinator_retry :
    (∀ (oracle : InsertOracle) (N : Nat) (tid : JStr) (rows : List FlatRow)
        (st : BQState), 1 ≤ N → N ≤ maxAttempts →
      (∀ i, i < N - 1 → oracle i = some 404) → oracle (N - 1) = none →
      insertWithRetry oracle tid rows st 0 =
        (stateInsertRows st tid rows,
         List.replicate N (.insertAttempt tid),
         (List.range (N - 1)).map (fun i => baseDelay * (i + 1)),
         .ok ())) ∧
    (∀ (oracle : InsertOracle) (tid : JStr) (rows : List FlatRow) (st : BQState),
      (∀ i, i < maxAttempts → oracle i = some 404) →
      insertWithRetry oracle tid rows st 0 =
        (st, List.replicate maxAttempts (.insertAttempt tid),
         (List.range (maxAttempts - 1)).map (fun i => baseDelay * (i + 1)),
         .error (.insertError 404))) ∧
    (∀ (oracle : InsertOracle) (j c : Nat) (tid : JStr) (rows : List FlatRow)
        (st : BQState), j < maxAttempts → c ≠ 404 →
      (∀ i, i < j → oracle i = some 404) → oracle j = some c →
      insertWithRetry oracle tid rows st 0 =
        (st, List.replicate (j + 1) (.insertAttempt tid),
         (List.range j).map (fun i => baseDelay * (i + 1)),
         .error (.insertError c))) := by
  have hmap : ∀ n : Nat, (List.range n).map (fun i => baseDelay * (0 + i + 1)) =
      (List.range n).map (fun i => baseDelay * (i + 1)) := by
    intro n
    apply List.map_congr_left
    intro i _
    norm_num
  refine ⟨?_, ?_, ?_⟩
  · intro oracle N tid rows st h1 h5 h404 hok
    have := insertRetry_succeeds_after oracle tid rows st (N - 1) 0
      (by have h55 : N ≤ 5 := h5; show 0 + (N - 1) < 5; omega)
      (fun i hi => by rw [Nat.zero_add]; exact h404 i hi)
      (by rw [Nat.zero_add]; exact hok)
    rw [this, hmap]
    have hN : N - 1 + 1 = N := by omega
    rw [hN]
  · intro oracle tid rows st h404
    have := insertRetry_exhausts oracle tid rows st (maxAttempts - 1) 0
      (by show 0 + (5 - 1) + 1 = 5; omega)
      (fun i _ hi2 => h404 i hi2)
    rw [this, hmap]
    rfl
  · intro oracle j c tid rows st hj hc h404 herr
    have := insertRetry_fatal_after oracle tid rows st j 0 c
      (by have hj5 : j < 5 := hj; show 0 + j < 5; omega) hc
      (fun i hi => by rw [Nat.zero_add]; exact h404 i hi)
      (by rw [Nat.zero_add]; exact herr)
    rw [this, hmap]

/-- Witness for C3: two transient failures then success yields success after
exactly 3 attempts with waits 2000 ms and 4000 ms; a non-transient code 403
on the first attempt is fatal immediately. -/
theorem c3_witness :
    insertWithRetry (fun i => if i < 2 then some 404 else none)
        (jstr "t") [] [] 0 =
      ([], List.replicate 3 (.insertAttempt (jstr "t")), [2000, 4000], .ok ()) ∧
    insertWithRetry (fun _ => some 403) (jstr "t") [] [] 0 =
      ([], [.insertAttempt (jstr "t")], [], .error (.insertError 403)) := by
  constructor
  · have h := c3_write_coordinator_retry.1 (fun i => if i < 2 then some 404 else none)
      3 (jstr "t") [] [] (by decide) (by decide)
      (fun i hi => by
        have : i < 2 := hi
        simp [this])
      (by decide)
    exact h.trans rfl
  · have h := c3_write_coordinator_retry.2.2 (fun _ => some 403) 0 403
      (jstr "t") [] [] (by decide) (by decide) (fun i hi => absurd hi (by omega))
      rfl
    exact h.trans rfl

/-! ## C1: decode failures in the Record Materializer -/

theorem materializeRows_error_of_mem {bs : List Field} {k : DynKey}
    {rows : List RawRecord} {r : RawRecord} (hr : r ∈ rows)
    (he : materializeRow bs k r = .error ()) :
    materializeRows bs k rows = .error () := by
  induction rows with
  | nil => cases hr
  | cons hd tl ih =>
    rcases List.mem_cons.mp hr with rfl | hmem
    · rw [materializeRows, he]
    · rw [materializeRows]
      cases hh : materializeRow bs k hd with
      | error e => cases e; rfl
      | ok fr => rw [ih hmem]

/-- C1 counterexample: a batch containing a record whose `context` field is
malformed JSON text aborts with a parse error before any destination-store
call; the record's fixed envelope fields are not emitted. -/
theorem c1_counterexample :
    (manageSchemaAndInsert (fun _ => none) (jstr "identifies") IDENTIFIES_SCHEMA
        [malformedContextRow] .traits [] []).2.2.2 = .error .parseError ∧
    (manageSchemaAndInsert (fun _ => none) (jstr "identifies") IDENTIFIES_SCHEMA
        [malformedContextRow] .traits [] []).2.2.1 = [] :=
  ⟨rfl, rfl⟩

/-- C1 amended: a missing or empty dynamic-payload or context field is
treated as an empty object, and a field whose text is well-formed JSON that
is not an object (such as the JSON string `"not json"`) degrades to an
empty payload contribution while the fixed envelope fields are still
emitted; but a field whose text is malformed JSON makes the materializer
throw, which aborts processing of the record's whole batch before any
destination-store call. -/
theorem c1_decode_failure_aborts_batch :
    (∀ (bs : List Field) (k : DynKey) (r : RawRecord),
      dynFieldGet r k = some .malformed ∨ r.context = some .malformed →
      materializeRow bs k r = .error ()) ∧
    (∀ (bs : List Field) (k : DynKey) (r : RawRecord) (s : JStr),
      dynFieldGet r k = some (.json (.str s)) →
      materializeRow bs k r = materializeRow bs k (dynFieldSet r k none)) ∧
    (∀ (bs : List Field) (k : DynKey) (r : RawRecord) (s v : JStr),
      dynFieldGet r k = some (.json (.str s)) → r.context = none →
      r.message_id = some v →
      ∃ out, materializeRow bs k r = .ok out ∧ (jstr "id", Json.str v) ∈ out) ∧
    (∀ (oracle : InsertOracle) (tableId : JStr) (bs : List Field) (k : DynKey)
        (rows : List RawRecord) (pset : List JStr) (st : BQState) (r : RawRecord),
      r ∈ rows → materializeRow bs k r = .error () →
      (manageSchemaAndInsert oracle tableId bs rows k pset st).2.2.2 =
        .error .parseError ∧
      (manageSchemaAndInsert oracle tableId bs rows k pset st).2.1 = st ∧
      (manageSchemaAndInsert oracle tableId bs rows k pset st).2.2.1 = []) := by
  refine ⟨?_, ?_, ?_, ?_⟩
  · intro bs k r h
    rcases h with h | h
    · simp only [materializeRow, h, parseField]
    · cases hd : parseField (dynFieldGet r k) with
      | error e =>
        cases e
        simp only [materializeRow, hd]
      | ok j =>
        simp only [materializeRow, hd]
        simp only [h, parseField]
  · intro bs k r s h
    have hget : dynFieldGet (dynFieldSet r k none) k = none := by
      cases k <;> rfl
    have hctx : (dynFieldSet r k none).context = r.context := rfl
    simp only [materializeRow, h, hget, hctx, parseField]
    cases hc : parseField r.context with
    | error e => rfl
    | ok ctx => rfl
  · intro bs k r s v hdyn hctx hmid
    by_cases hbs : bs = TRACKS_SCHEMA
    · subst hbs
      simp only [materializeRow, hdyn, hctx, hmid, parseField, if_pos rfl]
      refine ⟨_, rfl, ?_⟩
      simp [flattenObject, flattenLoop, List.filterMap_cons]
    · simp only [materializeRow, hdyn, hctx, hmid, parseField, if_neg hbs]
      refine ⟨_, rfl, ?_⟩
      simp [flattenObject, flattenLoop, List.filterMap_cons]
  · intro oracle tableId bs k rows pset st r hr he
    have hrows : ¬rows.length = 0 := by
      cases rows
      · cases hr
      · simp
    have hmat := materializeRows_error_of_mem hr he
    have hcore : manageCore oracle tableId bs rows k st = (st, [], .error .parseError) := by
      rw [manageCore, if_neg hrows, hmat]
    exact ⟨by simp only [manageSchemaAndInsert, hcore],
      by simp only [manageSchemaAndInsert, hcore],
      by simp only [manageSchemaAndInsert, hcore]⟩

/-- Witness for C1 amended: a record whose `traits` field is the JSON string
`"not json"` still materializes, and its fixed `id` column is emitted. -/
theorem c1_witness :
    ∃ out, materializeRow IDENTIFIES_SCHEMA .traits stringTraitsRow = .ok out ∧
      (jstr "id", Json.str (jstr "m1")) ∈ out :=
  c1_decode_failure_aborts_batch.2.2.1 IDENTIFIES_SCHEMA .traits stringTraitsRow
    (jstr "not json") (jstr "m1") rfl rfl rfl

/-! ## C7: dry-run behaviour of `processFile` -/

theorem groupAdd_fst {acc : List (JStr × List RawRecord)} {k : JStr}
    {r : RawRecord} : ∀ p ∈ groupAdd acc k r, p.1 = k ∨ ∃ q ∈ acc, p.1 = q.1 := by
  induction acc with
  | nil =>
    intro p hp
    simp only [groupAdd, List.mem_singleton] at hp
    exact Or.inl (hp ▸ rfl)
  | cons q rest ih =>
    intro p hp
    rw [groupAdd] at hp
    by_cases hq : q.1 = k
    · rw [if_pos hq] at hp
      rcases List.mem_cons.mp hp with rfl | hp2
      · exact Or.inl hq
      · exact Or.inr ⟨p, List.mem_cons_of_mem q hp2, rfl⟩
    · rw [if_neg hq] at hp
      rcases List.mem_cons.mp hp with rfl | hp2
      · exact Or.inr ⟨p, List.mem_cons_self p rest, rfl⟩
      · rcases ih p hp2 with h | ⟨q2, hq2, he⟩
        · exact Or.inl h
        · exact Or.inr ⟨q2, List.mem_cons_of_mem q hq2, he⟩

theorem foldl_routeStep_mono (l : List RawRecord) :
    ∀ (pa : List JStr × List (JStr × List RawRecord)) (x : JStr), x ∈ pa.1 →
      x ∈ (l.foldl routeStep pa).1 := by
  induction l with
  | nil => intro pa x hx; exact hx
  | cons ev rest ih =>
    intro pa x hx
    rw [List.foldl_cons]
    exact ih (routeStep pa ev) x (mem_setAdd_of_mem _ hx)

theorem foldl_routeStep_keys (l : List RawRecord) :
    ∀ (pa : List JStr × List (JStr × List RawRecord)),
      (∀ p ∈ pa.2, p.1 ∈ pa.1) →
      ∀ p ∈ (l.foldl routeStep pa).2, p.1 ∈ (l.foldl routeStep pa).1 := by
  induction l with
  | nil => intro pa h; exact h
  | cons ev rest ih =>
    intro pa h
    rw [List.foldl_cons]
    apply ih (routeStep pa ev)
    intro p hp
    rcases groupAdd_fst p hp with h1 | ⟨q, hq, he⟩
    · rw [h1]
      exact mem_setAdd_self _ _
    · rw [he]
      exact mem_setAdd_of_mem _ (h q hq)

theorem eventsRouting_mono {rows : List RawRecord} {pset : List JStr} {x : JStr}
    (hx : x ∈ pset) : x ∈ (eventsRouting rows pset).1 := by
  rw [eventsRouting]
  apply foldl_routeStep_mono
  show x ∈ (if _ then setAdd (if _ then setAdd pset (jstr "pages") else pset)
    (jstr "tracks") else _)
  split
  · split
    · exact mem_setAdd_of_mem _ (mem_setAdd_of_mem _ hx)
    · exact mem_setAdd_of_mem _ hx
  · split
    · exact mem_setAdd_of_mem _ hx
    · exact hx

theorem eventsRouting_mem_pages {rows : List RawRecord} {pset : List JStr}
    (h : rows.filter (fun r => decide (r.rtype = some (jstr "0"))) ≠ []) :
    jstr "pages" ∈ (eventsRouting rows pset).1 := by
  rw [eventsRouting]
  apply foldl_routeStep_mono
  have hlen : (rows.filter (fun r => decide (r.rtype = some (jstr "0")))).length > 0 :=
    List.length_pos.mpr h
  show jstr "pages" ∈ (if _ then setAdd (if _ then _ else _) (jstr "tracks") else _)
  rw [if_pos hlen]
  split
  · exact mem_setAdd_of_mem _ (mem_setAdd_self _ _)
  · exact mem_setAdd_self _ _

theorem eventsRouting_mem_tracks {rows : List RawRecord} {pset : List JStr}
    (h : rows.filter (fun r => decide (r.rtype = some (jstr "2"))) ≠ []) :
    jstr "tracks" ∈ (eventsRouting rows pset).1 := by
  rw [eventsRouting]
  apply foldl_routeStep_mono
  have hlen : (rows.filter (fun r => decide (r.rtype = some (jstr "2")))).length > 0 :=
    List.length_pos.mpr h
  rw [if_pos hlen]
  exact mem_setAdd_self _ _

theorem eventsRouting_keys {rows : List RawRecord} {pset : List JStr} :
    ∀ p ∈ (eventsRouting rows pset).2, p.1 ∈ (eventsRouting rows pset).1 := by
  rw [eventsRouting]
  exact foldl_routeStep_keys _ _ (fun p hp => absurd hp (List.not_mem_nil p))

theorem manageEventTables_mem (oracles : TableOracles) :
    ∀ (entries : List (JStr × List RawRecord)) (pset : List JStr) (st : BQState)
      (x : JStr), x ∈ pset → x ∈ (manageEventTables oracles entries pset st).1 := by
  intro entries
  induction entries with
  | nil => intro pset st x hx; exact hx
  | cons p rest ih =>
    obtain ⟨tid, trows⟩ := p
    intro pset st x hx
    rcases hr : manageSchemaAndInsert (oracles tid) tid TRACKS_SCHEMA trows
      .properties pset st with ⟨ps, st2, ops, res⟩
    have hps : x ∈ ps := by
      have h1 : (manageSchemaAndInsert (oracles tid) tid TRACKS_SCHEMA trows
          .properties pset st).1 = ps := by rw [hr]
      rw [show (manageSchemaAndInsert (oracles tid) tid TRACKS_SCHEMA trows
        .properties pset st).1 = setAdd pset tid from rfl] at h1
      rw [← h1]
      exact mem_setAdd_of_mem _ hx
    simp only [manageEventTables, hr]
    cases res with
    | error e => exact hps
    | ok u =>
      cases u
      exact ih ps st2 x hps

theorem manageEventTables_pset_eq (oracles : TableOracles) :
    ∀ (entries : List (JStr × List RawRecord)) (pset : List JStr) (st : BQState),
      (∀ p ∈ entries, p.1 ∈ pset) →
      (manageEventTables oracles entries pset st).1 = pset := by
  intro entries
  induction entries with
  | nil => intro pset st _; rfl
  | cons p rest ih =>
    obtain ⟨tid, trows⟩ := p
    intro pset st h
    have hmem : tid ∈ pset := h (tid, trows) (List.mem_cons_self _ _)
    rcases hr : manageSchemaAndInsert (oracles tid) tid TRACKS_SCHEMA trows
      .properties pset st with ⟨ps, st2, ops, res⟩
    have hps : ps = pset := by
      have h1 : (manageSchemaAndInsert (oracles tid) tid TRACKS_SCHEMA trows
          .properties pset st).1 = ps := by rw [hr]
      rw [show (manageSchemaAndInsert (oracles tid) tid TRACKS_SCHEMA trows
        .properties pset st).1 = setAdd pset tid from rfl] at h1
      rw [← h1]
      exact setAdd_eq_of_mem hmem
    simp only [manageEventTables, hr]
    cases res with
    | error e => exact hps
    | ok u =>
      cases u
      rw [hps]
      exact ih pset st2 (fun q hq => h q (List.mem_cons_of_mem _ hq))

theorem eventsNonDry_mono (oracles : TableOracles) (pr tr : List RawRecord)
    (grouped : List (JStr × List RawRecord)) (pset : List JStr) (st : BQState)
    (x : JStr) (hx : x ∈ pset) :
    x ∈ (eventsNonDry oracles pr tr grouped pset st).1 := by
  rw [eventsNonDry]
  rcases hrp : manageSchemaAndInsert (oracles (jstr "pages")) (jstr "pages")
      PAGES_SCHEMA pr .properties pset st with ⟨ps1, stA, opsA, resA⟩
  have hx1 : x ∈ ps1 := by
    have h1 : (manageSchemaAndInsert (oracles (jstr "pages")) (jstr "pages")
        PAGES_SCHEMA pr .properties pset st).1 = ps1 := by rw [hrp]
    rw [show (manageSchemaAndInsert (oracles (jstr "pages")) (jstr "pages")
      PAGES_SCHEMA pr .properties pset st).1 = setAdd pset (jstr "pages")
      from rfl] at h1
    rw [← h1]
    exact mem_setAdd_of_mem _ hx
  simp only [hrp]
  cases resA with
  | error e => exact hx1
  | ok u =>
    cases u
    rcases hrt : manageSchemaAndInsert (oracles (jstr "tracks")) (jstr "tracks")
        TRACKS_SCHEMA tr .properties ps1 stA with ⟨ps2, stB, opsB, resB⟩
    have hx2 : x ∈ ps2 := by
      have h2 : (manageSchemaAndInsert (oracles (jstr "tracks")) (jstr "tracks")
          TRACKS_SCHEMA tr .properties ps1 stA).1 = ps2 := by rw [hrt]
      rw [show (manageSchemaAndInsert (oracles (jstr "tracks")) (jstr "tracks")
        TRACKS_SCHEMA tr .properties ps1 stA).1 = setAdd ps1 (jstr "tracks")
        from rfl] at h2
      rw [← h2]
      exact mem_setAdd_of_mem _ hx1
    simp only [hrt]
    cases resB with
    | error e => exact hx2
    | ok u2 =>
      cases u2
      exact manageEventTables_mem oracles grouped ps2 stB x hx2

theorem eventsNonDry_pset_eq (oracles : TableOracles) (pr tr : List RawRecord)
    (grouped : List (JStr × List RawRecord)) (pset : List JStr) (st : BQState)
    (hpg : jstr "pages" ∈ pset) (htk : jstr "tracks" ∈ pset)
    (hg : ∀ p ∈ grouped, p.1 ∈ pset) :
    (eventsNonDry oracles pr tr grouped pset st).1 = pset := by
  rw [eventsNonDry]
  rcases hrp : manageSchemaAndInsert (oracles (jstr "pages")) (jstr "pages")
      PAGES_SCHEMA pr .properties pset st with ⟨ps1, stA, opsA, resA⟩
  have hps1 : ps1 = pset := by
    have h1 : (manageSchemaAndInsert (oracles (jstr "pages")) (jstr "pages")
        PAGES_SCHEMA pr .properties pset st).1 = ps1 := by rw [hrp]
    rw [show (manageSchemaAndInsert (oracles (jstr "pages")) (jstr "pages")
      PAGES_SCHEMA pr .properties pset st).1 = setAdd pset (jstr "pages")
      from rfl] at h1
    rw [← h1]
    exact setAdd_eq_of_mem hpg
  simp only [hrp]
  cases resA with
  | error e => exact hps1
  | ok u =>
    cases u
    rcases hrt : manageSchemaAndInsert (oracles (jstr "tracks")) (jstr "tracks")
        TRACKS_SCHEMA tr .properties ps1 stA with ⟨ps2, stB, opsB, resB⟩
    have hps2 : ps2 = pset := by
      have h2 : (manageSchemaAndInsert (oracles (jstr "tracks")) (jstr "tracks")
          TRACKS_SCHEMA tr .properties ps1 stA).1 = ps2 := by rw [hrt]
      rw [show (manageSchemaAndInsert (oracles (jstr "tracks")) (jstr "tracks")
        TRACKS_SCHEMA tr .properties ps1 stA).1 = setAdd ps1 (jstr "tracks")
        from rfl] at h2
      rw [← h2, hps1]
      exact setAdd_eq_of_mem htk
    simp only [hrt]
    cases resB with
    | error e => exact hps2
    | ok u2 =>
      cases u2
      rw [hps2]
      exact manageEventTables_pset_eq oracles grouped pset stB hg

theorem identifiesNonDry_pset_eq (oracles : TableOracles) (rows : List RawRecord)
    (pset : List JStr) (st : BQState)
    (hid : jstr "identifies" ∈ pset) (hus : jstr "users" ∈ pset) :
    (identifiesNonDry oracles rows pset st).1 = pset := by
  rw [identifiesNonDry]
  rcases hr1 : manageSchemaAndInsert (oracles (jstr "identifies"))
      (jstr "identifies") IDENTIFIES_SCHEMA rows .traits pset st with
    ⟨ps1, stA, opsA, resA⟩
  have hps1 : ps1 = pset := by
    have h1 : (manageSchemaAndInsert (oracles (jstr "identifies"))
        (jstr "identifies") IDENTIFIES_SCHEMA rows .traits pset st).1 = ps1 := by
      rw [hr1]
    rw [show (manageSchemaAndInsert (oracles (jstr "identifies"))
      (jstr "identifies") IDENTIFIES_SCHEMA rows .traits pset st).1 =
      setAdd pset (jstr "identifies") from rfl] at h1
    rw [← h1]
    exact setAdd_eq_of_mem hid
  simp only [hr1]
  cases resA with
  | error e => exact hps1
  | ok u =>
    cases u
    rw [hps1]
    exact setAdd_eq_of_mem hus

/-- C7 counterexample: an events file with one track row and no page rows.
The non-dry run reports `pages` (the unconditional `pages` insert call
registers it even with zero page rows) while the dry run does not, so the
dry-run's reported destination set differs from the non-dry one. -/
theorem c7_counterexample :
    jstr "pages" ∈ (processFile (fun _ _ => none) .events [trackTypeRow]
      [] false []).1 ∧
    jstr "pages" ∉ (processFile (fun _ _ => none) .events [trackTypeRow]
      [] true []).1 := by
  constructor <;> decide

/-- C7 amended: a dry run performs no destination-store operation and leaves
the destination state untouched while the routing/table-naming logic still
executes; the dry-run reported set is contained in the non-dry one, with
equality for identifies and groups files always, and for events files
whenever at least one page row and at least one track row are present (when
one of the two is absent, only the non-dry run additionally reports `pages`
respectively `tracks`). Type discovery, which runs inside the insert
operation, is also skipped on a dry run. -/
theorem c7_dry_run_skips_writes :
    (∀ (oracles : TableOracles) (ftype : FileType) (rows : List RawRecord)
        (pset : List JStr) (st : BQState),
      (processFile oracles ftype rows pset true st).2.1 = st ∧
      (processFile oracles ftype rows pset true st).2.2.1 = ([] : List BQOp) ∧
      (processFile oracles ftype rows pset true st).2.2.2 = .ok ()) ∧
    (∀ (oracles : TableOracles) (rows : List RawRecord) (pset : List JStr)
        (st : BQState) (x : JStr),
      x ∈ (processFile oracles .events rows pset true st).1 →
      x ∈ (processFile oracles .events rows pset false st).1) ∧
    (∀ (oracles : TableOracles) (rows : List RawRecord) (pset : List JStr)
        (st : BQState),
      rows.filter (fun r => decide (r.rtype = some (jstr "0"))) ≠ [] →
      rows.filter (fun r => decide (r.rtype = some (jstr "2"))) ≠ [] →
      (processFile oracles .events rows pset false st).1 =
        (processFile oracles .events rows pset true st).1) ∧
    (∀ (oracles : TableOracles) (rows : List RawRecord) (pset : List JStr)
        (st : BQState),
      (processFile oracles .identifies rows pset false st).1 =
        (processFile oracles .identifies rows pset true st).1) ∧
    (∀ (oracles : TableOracles) (rows : List RawRecord) (pset : List JStr)
        (st : BQState),
      (processFile oracles .groups rows pset false st).1 =
        (processFile oracles .groups rows pset true st).1) := by
  refine ⟨?_, ?_, ?_, ?_, ?_⟩
  · intro oracles ftype rows pset st
    cases ftype <;> exact ⟨rfl, rfl, rfl⟩
  · intro oracles rows pset st x hx
    exact eventsNonDry_mono oracles _ _ _ _ st x hx
  · intro oracles rows pset st hp ht
    show (eventsNonDry oracles _ _ (eventsRouting rows pset).2
      (eventsRouting rows pset).1 st).1 = (eventsRouting rows pset).1
    exact eventsNonDry_pset_eq oracles _ _ _ _ st
      (eventsRouting_mem_pages hp) (eventsRouting_mem_tracks ht)
      eventsRouting_keys
  · intro oracles rows pset st
    show (identifiesNonDry oracles rows
      (setAdd (setAdd pset (jstr "identifies")) (jstr "users")) st).1 =
      setAdd (setAdd pset (jstr "identifies")) (jstr "users")
    exact identifiesNonDry_pset_eq oracles rows _ st
      (mem_setAdd_of_mem _ (mem_setAdd_self _ _)) (mem_setAdd_self _ _)
  · intro oracles rows pset st
    show (manageSchemaAndInsert (oracles (jstr "_groups")) (jstr "_groups")
      GROUPS_SCHEMA rows .traits (setAdd pset (jstr "_groups")) st).1 =
      setAdd pset (jstr "_groups")
    exact setAdd_eq_of_mem (mem_setAdd_self _ _)

/-- Witness for C7 amended: with one page row and one track row present, the
dry and non-dry reported destination sets coincide. -/
theorem c7_witness :
    (processFile (fun _ _ => none) .events [pageTypeRow, trackTypeRow]
      [] false []).1 =
    (processFile (fun _ _ => none) .events [pageTypeRow, trackTypeRow]
      [] true []).1 :=
  c7_dry_run_skips_writes.2.2.1 (fun _ _ => none) [pageTypeRow, trackTypeRow]
    [] []
    (fun h => absurd (congrArg List.length h) (by decide))
    (fun h => absurd (congrArg List.length h) (by decide))

end JuneMigrate
